import Mathlib

/-!
The read side of bytebuilder: `Buffer`, byte slices and `io.Reader` sources.

A shallow embedding of `read_buffer.go` (the `Buffer` read methods) and the
properties of its bounds checking, big-endian integer assembly and
length-prefixed vector decoding, and of `read.go`: the same readers as
functions on a caller-owned slice, and the readers on an `io.Reader`. `read.go`
also repeats `ReadBytes`, `Skip` and the four fixed-width readers of `Buffer`
with the same bodies.

Conventions of the embedding

* a Go `[]byte` is `GoSlice`: either the nil slice or a non-nil slice with its
  bytes; slicing the nil slice gives the nil slice, slicing a non-nil slice
  gives a non-nil slice (also when the result is empty), as in Go;
* a Go `int` argument is an `Int`; `len` is a `Nat`; the fixed-width unsigned
  results are `Nat`s, every shift reduced modulo `2 ^ width`;
* a method on `*Buffer` returns its `Outcome` (a returned value or a panic)
  paired with the buffer as the call leaves it; a function on `*[]byte` or on
  an `io.Reader` likewise, paired with the slice variable or the source;
* the functions on an `io.Reader` allocate with `make([]byte, n)`: they take
  the `Runtime` they run on and end in a `Run`, which adds to `Outcome` the
  fatal error of a runtime that cannot provide the memory.
-/

/-! ## Data model -/

/-- One byte. -/
abbrev Byte := Fin 256

/-- A Go `[]byte`: `nil`, or a non-nil slice holding `data`. -/
inductive GoSlice where
  | nil
  | mk (data : List Byte)
deriving DecidableEq, Repr

/-- How a call ends: it returns `v`, or it panics with a message. -/
inductive Outcome (α : Type) where
  | ret (v : α)
  | panic (msg : String)
deriving DecidableEq, Repr

/-- Sequencing of evaluations that may panic. -/
def Outcome.bind {α β : Type} (x : Outcome α) (f : α → Outcome β) : Outcome β :=
  match x with
  | .ret v => f v
  | .panic m => .panic m

instance : Monad Outcome where
  pure := Outcome.ret
  bind := Outcome.bind

/-- Whether the call returned (did not panic). -/
def Outcome.returns {α : Type} : Outcome α → Bool
  | .ret _ => true
  | .panic _ => false

namespace GoSlice

/-- The bytes of a slice; the nil slice has none. -/
def bytes : GoSlice → List Byte
  | nil => []
  | mk l => l

/-- Go `len(s)`. -/
def len (s : GoSlice) : Nat := s.bytes.length

/-- Go `s == nil`. -/
def isNil : GoSlice → Bool
  | nil => true
  | mk _ => false

/-- Go `s[:n]`. The bound is checked against the length (Go checks it against
the capacity, which is at least the length). -/
def sliceTo (s : GoSlice) (n : Int) : Outcome GoSlice :=
  if 0 ≤ n ∧ n ≤ (s.len : Int) then
    match s with
    | nil => .ret nil
    | mk l => .ret (mk (l.take n.toNat))
  else .panic "slice bounds out of range"

/-- Go `s[n:]`. -/
def sliceFrom (s : GoSlice) (n : Int) : Outcome GoSlice :=
  if 0 ≤ n ∧ n ≤ (s.len : Int) then
    match s with
    | nil => .ret nil
    | mk l => .ret (mk (l.drop n.toNat))
  else .panic "slice bounds out of range"

/-- Go `s[i]` for a constant index `i`. -/
def index (s : GoSlice) (i : Nat) : Outcome Byte :=
  match s.bytes.get? i with
  | some x => .ret x
  | none => .panic "index out of range"

end GoSlice

/-- Modelled from the spec: the declaration of `Buffer` is not among the source
files; the methods use one field, `b.b`, a `[]byte` holding the remaining span
("State: one ByteSpan, `remaining`"). -/
structure Buffer where
  b : GoSlice
deriving DecidableEq, Repr

/-! ## `read_buffer.go` -/

/-- Method `func (b *Buffer) ReadBytes(n int) []byte` -/
def Buffer.ReadBytes (b : Buffer) (n : Int) : Outcome GoSlice × Buffer :=
  if (b.b.len : Int) < n ∨ n < 0 then
    (.ret .nil, b)
  else
    match b.b.sliceTo n with
    | .panic m => (.panic m, b)
    | .ret v =>
      match b.b.sliceFrom n with
      | .panic m => (.panic m, b)
      | .ret r => (.ret v, ⟨r⟩)

/-- Method `func (b *Buffer) Skip(n int) bool`: `return b.ReadBytes(n) != nil` -/
def Buffer.Skip (b : Buffer) (n : Int) : Outcome Bool × Buffer :=
  match b.ReadBytes n with
  | (.panic m, b1) => (.panic m, b1)
  | (.ret v, b1) => (.ret (!v.isNil), b1)

/-- The expression `uint8(v[0])`. -/
def exprUint8 (v : GoSlice) : Outcome Nat := do
  let v0 ← v.index 0
  pure (v0.val % 2 ^ 8)

/-- The expression `uint16(v[0])<<8 | uint16(v[1])`, in `uint16` arithmetic. -/
def exprUint16 (v : GoSlice) : Outcome Nat := do
  let v0 ← v.index 0
  let v1 ← v.index 1
  pure (((v0.val <<< 8) % 2 ^ 16) ||| v1.val)

/-- The expression `uint32(v[0])<<16 | uint32(v[1])<<8 | uint32(v[2])`, in
`uint32` arithmetic. -/
def exprUint24 (v : GoSlice) : Outcome Nat := do
  let v0 ← v.index 0
  let v1 ← v.index 1
  let v2 ← v.index 2
  pure ((((v0.val <<< 16) % 2 ^ 32) ||| ((v1.val <<< 8) % 2 ^ 32)) ||| v2.val)

/-- The expression
`uint32(v[0])<<24 | uint32(v[1])<<16 | uint32(v[2])<<8 | uint32(v[3])`, in
`uint32` arithmetic. -/
def exprUint32 (v : GoSlice) : Outcome Nat := do
  let v0 ← v.index 0
  let v1 ← v.index 1
  let v2 ← v.index 2
  let v3 ← v.index 3
  pure (((((v0.val <<< 24) % 2 ^ 32) ||| ((v1.val <<< 16) % 2 ^ 32))
    ||| ((v2.val <<< 8) % 2 ^ 32)) ||| v3.val)

/-- The common body of the four fixed-width readers:
`v := b.ReadBytes(k); if v == nil { return 0, false }; return <expr over v>, true`. -/
def Buffer.readWith (b : Buffer) (k : Int) (expr : GoSlice → Outcome Nat) :
    Outcome (Nat × Bool) × Buffer :=
  match b.ReadBytes k with
  | (.panic m, b1) => (.panic m, b1)
  | (.ret v, b1) =>
    if v.isNil then (.ret (0, false), b1)
    else
      match expr v with
      | .panic m => (.panic m, b1)
      | .ret x => (.ret (x, true), b1)

/-- Method `func (b *Buffer) ReadUint8() (uint8, bool)` -/
def Buffer.ReadUint8 (b : Buffer) : Outcome (Nat × Bool) × Buffer :=
  b.readWith 1 exprUint8

/-- Method `func (b *Buffer) ReadUint16() (uint16, bool)` -/
def Buffer.ReadUint16 (b : Buffer) : Outcome (Nat × Bool) × Buffer :=
  b.readWith 2 exprUint16

/-- Method `func (b *Buffer) ReadUint24() (uint32, bool)` -/
def Buffer.ReadUint24 (b : Buffer) : Outcome (Nat × Bool) × Buffer :=
  b.readWith 3 exprUint24

/-- Method `func (b *Buffer) ReadUint32() (uint32, bool)` -/
def Buffer.ReadUint32 (b : Buffer) : Outcome (Nat × Bool) × Buffer :=
  b.readWith 4 exprUint32

/-- Width in bits of the Go type `int` (the 64-bit targets). -/
def intSize : Nat := 64

/-- The conversion `int(l)` of an unsigned value: `l` reduced to `intSize` bits
and read as a signed (twos-complement) number. -/
def toInt (l : Nat) : Int :=
  if l % 2 ^ intSize < 2 ^ (intSize - 1) then ((l % 2 ^ intSize : Nat) : Int)
  else ((l % 2 ^ intSize : Nat) : Int) - ((2 ^ intSize : Nat) : Int)

/-- One arm of the switch in `ReadInt`: `l, ok := <reader>; return int(l), ok`. -/
def intResult (r : Outcome (Nat × Bool) × Buffer) : Outcome (Int × Bool) × Buffer :=
  match r with
  | (.panic m, b1) => (.panic m, b1)
  | (.ret (l, ok), b1) => (.ret (toInt l, ok), b1)

/-- Method `func (b *Buffer) ReadInt(bitSize int) (int, bool)` -/
def Buffer.ReadInt (b : Buffer) (bitSize : Int) : Outcome (Int × Bool) × Buffer :=
  if bitSize = 8 then intResult b.ReadUint8
  else if bitSize = 16 then intResult b.ReadUint16
  else if bitSize = 24 then intResult b.ReadUint24
  else if bitSize = 32 then intResult b.ReadUint32
  else (.panic "invalid bitSize value", b)

/-- Method `func (b *Buffer) ReadVector(bitSize int) ([]byte, bool)` -/
def Buffer.ReadVector (b : Buffer) (bitSize : Int) : Outcome (GoSlice × Bool) × Buffer :=
  match b.ReadInt bitSize with
  | (.panic m, b1) => (.panic m, b1)
  | (.ret (n, ok), b1) =>
    if !ok then (.ret (.mk [], false), b1)
    else
      match b1.ReadBytes n with
      | (.panic m, b2) => (.panic m, b2)
      | (.ret v, b2) =>
        if v.isNil then (.ret (.mk [], false), b2)
        else (.ret (v, true), b2)

/-- Go `time.Time`, as far as it is built here: the zero value `time.Time{}`
or `time.Unix(sec, nsec)`. -/
inductive Time where
  | zero
  | unix (sec : Int) (nsec : Int)
deriving DecidableEq, Repr

/-- Go `t.Unix()`: seconds since the epoch; the zero time is January 1 of year 1. -/
def Time.Unix : Time → Int
  | .zero => -62135596800
  | .unix sec nsec => sec + nsec / 1000000000

/-- Go `t.Nanosecond()`. -/
def Time.Nanosecond : Time → Int
  | .zero => 0
  | .unix _ nsec => nsec % 1000000000

/-- The conversion `int64(v)` of an unsigned value. -/
def toInt64 (v : Nat) : Int :=
  if v % 2 ^ 64 < 2 ^ 63 then ((v % 2 ^ 64 : Nat) : Int)
  else ((v % 2 ^ 64 : Nat) : Int) - ((2 ^ 64 : Nat) : Int)

/-- Method `func (b *Buffer) ReadGMTUnixTime32() (time.Time, bool)` -/
def Buffer.ReadGMTUnixTime32 (b : Buffer) : Outcome (Time × Bool) × Buffer :=
  match b.ReadUint32 with
  | (.panic m, b1) => (.panic m, b1)
  | (.ret (v, ok), b1) =>
    if !ok then (.ret (.zero, false), b1)
    else (.ret (.unix (toInt64 v) 0, true), b1)

/-! ## `read.go`: the functions on a caller-owned slice

The pointer `in *[]byte` is the slice variable of the caller: a function takes
its value and returns, next to its outcome, the value the variable holds
afterwards. -/

/-- Function `func ReadBytes(in *[]byte, n int) []byte` -/
def ReadBytes (s : GoSlice) (n : Int) : Outcome GoSlice × GoSlice :=
  if (s.len : Int) < n ∨ n < 0 then
    (.ret .nil, s)
  else
    match s.sliceTo n with
    | .panic m => (.panic m, s)
    | .ret out =>
      match s.sliceFrom n with
      | .panic m => (.panic m, s)
      | .ret r => (.ret out, r)

/-- Function `func Skip(in *[]byte, n int) bool`: `return ReadBytes(in, n) != nil` -/
def Skip (s : GoSlice) (n : Int) : Outcome Bool × GoSlice :=
  match ReadBytes s n with
  | (.panic m, s1) => (.panic m, s1)
  | (.ret v, s1) => (.ret (!v.isNil), s1)

/-- The common body of the four fixed-width functions:
`v := ReadBytes(in, k); if v == nil { return 0, false }; return <expr over v>, true`. -/
def readWith (s : GoSlice) (k : Int) (expr : GoSlice → Outcome Nat) :
    Outcome (Nat × Bool) × GoSlice :=
  match ReadBytes s k with
  | (.panic m, s1) => (.panic m, s1)
  | (.ret v, s1) =>
    if v.isNil then (.ret (0, false), s1)
    else
      match expr v with
      | .panic m => (.panic m, s1)
      | .ret x => (.ret (x, true), s1)

/-- Function `func ReadUint8(in *[]byte) (uint8, bool)` -/
def ReadUint8 (s : GoSlice) : Outcome (Nat × Bool) × GoSlice :=
  readWith s 1 exprUint8

/-- Function `func ReadUint16(in *[]byte) (uint16, bool)` -/
def ReadUint16 (s : GoSlice) : Outcome (Nat × Bool) × GoSlice :=
  readWith s 2 exprUint16

/-- Function `func ReadUint24(in *[]byte) (uint32, bool)` -/
def ReadUint24 (s : GoSlice) : Outcome (Nat × Bool) × GoSlice :=
  readWith s 3 exprUint24

/-- Function `func ReadUint32(in *[]byte) (uint32, bool)` -/
def ReadUint32 (s : GoSlice) : Outcome (Nat × Bool) × GoSlice :=
  readWith s 4 exprUint32

/-! ## `read.go`: the functions on an `io.Reader` -/

/-- Go `error` values met here: `io.EOF`, or any other error with its text. -/
inductive GoError where
  | EOF
  | other (msg : String)
deriving DecidableEq, Repr

/-- What one call `in.Read(p)` does: it stores `written` from `p[0]` on (what
would fall beyond `len(p)` is not stored), returns the count `n` and the error
`err` (`none` is the nil error), and leaves the source in state `next`. -/
structure ReadResult (σ : Type) where
  written : List Byte
  n : Int
  err : Option GoError
  next : σ

/-- An `io.Reader` whose state is a `σ`: `Read` is given the state and `len(p)`. -/
structure Reader (σ : Type) where
  Read : σ → Nat → ReadResult σ

/-- The contents of `p` after a call that stored `w` from `p[0]` on. -/
def store (p w : List Byte) : List Byte :=
  w.take p.length ++ p.drop w.length

/-- How a call that allocates ends: it returns `v`, it panics with a message, or
the runtime stops the program with a fatal error (no `recover` stops that). -/
inductive Run (α : Type) where
  | ret (v : α)
  | panic (msg : String)
  | fatal (msg : String)
deriving DecidableEq, Repr

/-- Whether the call returned (neither a panic nor a fatal error). -/
def Run.returns {α : Type} : Run α → Bool
  | .ret _ => true
  | .panic _ => false
  | .fatal _ => false

/-- The Go runtime as far as `make([]byte, n)` depends on it: `maxAlloc`, the
largest length `makeslice` accepts on the target (a constant of the platform),
and `avail`, the number of bytes the allocator can provide at the call. -/
structure Runtime where
  maxAlloc : Nat
  avail : Nat
deriving DecidableEq, Repr

/-- A linux/amd64 runtime (`maxAlloc` is `2^48` there) that can provide `avail`
bytes. -/
def runtime64 (avail : Nat) : Runtime := ⟨2 ^ 48, avail⟩

/-- Go `make([]byte, n)` at run time: a panic when `n` is negative or over the
length limit of the runtime; otherwise `n` zero bytes when the allocator can
provide them, and the fatal error "out of memory" when it cannot. -/
def makeBytes (rt : Runtime) (n : Int) : Run GoSlice :=
  if n < 0 ∨ (rt.maxAlloc : Int) < n then
    .panic "runtime error: makeslice: len out of range"
  else if n ≤ (rt.avail : Int) then .ret (.mk (List.replicate n.toNat 0))
  else .fatal "fatal error: out of memory"

/-- Function `func ReadReaderBytes(in io.Reader, n int) ([]byte, error)` -/
def ReadReaderBytes {σ : Type} (rt : Runtime) (R : Reader σ) (rd : σ) (n : Int) :
    Run (GoSlice × Option GoError) × σ :=
  if n < 0 then
    (.ret (.mk [], some (.other "number is less than zero")), rd)
  else
    match makeBytes rt n with
    | .panic m => (.panic m, rd)
    | .fatal m => (.fatal m, rd)
    | .ret b =>
      let r := R.Read rd b.len
      (.ret (.mk (store b.bytes r.written), r.err), r.next)

/-- Function `func SkipReader(in io.Reader, n int) error` -/
def SkipReader {σ : Type} (rt : Runtime) (R : Reader σ) (rd : σ) (n : Int) :
    Run (Option GoError) × σ :=
  match ReadReaderBytes rt R rd n with
  | (.panic m, rd1) => (.panic m, rd1)
  | (.fatal m, rd1) => (.fatal m, rd1)
  | (.ret (_, err), rd1) => (.ret err, rd1)

/-- Function `func ReadReaderUint8(in io.Reader) (uint8, error)`:
`v, err := ReadReaderBytes(in, 1); return uint8(v[0]), err` -/
def ReadReaderUint8 {σ : Type} (rt : Runtime) (R : Reader σ) (rd : σ) :
    Run (Nat × Option GoError) × σ :=
  match ReadReaderBytes rt R rd 1 with
  | (.panic m, rd1) => (.panic m, rd1)
  | (.fatal m, rd1) => (.fatal m, rd1)
  | (.ret (v, err), rd1) =>
    match exprUint8 v with
    | .panic m => (.panic m, rd1)
    | .ret x => (.ret (x, err), rd1)

/-- The common body of `ReadReaderUint16`, `ReadReaderUint24`, `ReadReaderUint32`:
`v, err := ReadReaderBytes(in, k); if err != nil { return 0, err };
return <expr over v>, err`. -/
def readerWith {σ : Type} (rt : Runtime) (R : Reader σ) (rd : σ) (k : Int)
    (expr : GoSlice → Outcome Nat) : Run (Nat × Option GoError) × σ :=
  match ReadReaderBytes rt R rd k with
  | (.panic m, rd1) => (.panic m, rd1)
  | (.fatal m, rd1) => (.fatal m, rd1)
  | (.ret (v, err), rd1) =>
    if err.isSome then (.ret (0, err), rd1)
    else
      match expr v with
      | .panic m => (.panic m, rd1)
      | .ret x => (.ret (x, err), rd1)

/-- Function `func ReadReaderUint16(in io.Reader) (uint16, error)` -/
def ReadReaderUint16 {σ : Type} (rt : Runtime) (R : Reader σ) (rd : σ) :
    Run (Nat × Option GoError) × σ :=
  readerWith rt R rd 2 exprUint16

/-- Function `func ReadReaderUint24(in io.Reader) (uint32, error)` -/
def ReadReaderUint24 {σ : Type} (rt : Runtime) (R : Reader σ) (rd : σ) :
    Run (Nat × Option GoError) × σ :=
  readerWith rt R rd 3 exprUint24

/-- Function `func ReadReaderUint32(in io.Reader) (uint32, error)` -/
def ReadReaderUint32 {σ : Type} (rt : Runtime) (R : Reader σ) (rd : σ) :
    Run (Nat × Option GoError) × σ :=
  readerWith rt R rd 4 exprUint32

/-! ### Sources

Readers over a list of bytes still to be delivered, as in the Go standard
library. -/

/-- A source over the bytes it still holds that delivers at most `k` bytes per
`Read` with a nil error, and `0, io.EOF` once it holds none (`bytes.Reader`
behind a wrapper that passes `p[:k]` on; `iotest.OneByteReader` for `k = 1`). -/
def chunkReader (k : Nat) : Reader (List Byte) where
  Read := fun s len =>
    if s.isEmpty then ⟨[], 0, some .EOF, s⟩
    else ⟨s.take (min k len), ((s.take (min k len)).length : Int), none, s.drop (min k len)⟩

/-- A source that reports `io.EOF` in the same call that delivers its last
bytes (`iotest.DataErrReader`). -/
def dataErrReader : Reader (List Byte) where
  Read := fun s len =>
    ⟨s.take len, ((s.take len).length : Int),
      if (s.drop len).isEmpty then some .EOF else none, s.drop len⟩

/-- A source that delivers nothing and counts the calls of `Read` it received. -/
def countReader : Reader Nat where
  Read := fun c _ => ⟨[], 0, none, c + 1⟩

/-! ## Sequences of calls -/

/-- A call of one read method of `Buffer`. -/
inductive Op where
  | ReadBytes (n : Int)
  | Skip (n : Int)
  | ReadUint8
  | ReadUint16
  | ReadUint24
  | ReadUint32
  | ReadInt (bitSize : Int)
  | ReadGMTUnixTime32
  | ReadVector (bitSize : Int)
deriving DecidableEq, Repr

/-- The Buffer as the call leaves it (also when the call panics). -/
def Op.after (op : Op) (b : Buffer) : Buffer :=
  match op with
  | .ReadBytes n => (b.ReadBytes n).2
  | .Skip n => (b.Skip n).2
  | .ReadUint8 => b.ReadUint8.2
  | .ReadUint16 => b.ReadUint16.2
  | .ReadUint24 => b.ReadUint24.2
  | .ReadUint32 => b.ReadUint32.2
  | .ReadInt bitSize => (b.ReadInt bitSize).2
  | .ReadGMTUnixTime32 => b.ReadGMTUnixTime32.2
  | .ReadVector bitSize => (b.ReadVector bitSize).2

/-- The Buffer after a sequence of calls, one after the other. -/
def Buffer.afterAll (b : Buffer) (ops : List Op) : Buffer :=
  ops.foldl (fun b1 op => op.after b1) b

/-- A call of one function on a caller-owned slice. -/
inductive SliceOp where
  | ReadBytes (n : Int)
  | Skip (n : Int)
  | ReadUint8
  | ReadUint16
  | ReadUint24
  | ReadUint32
deriving DecidableEq, Repr

/-- The slice variable as the call leaves it. -/
def GoSlice.after (s : GoSlice) (op : SliceOp) : GoSlice :=
  match op with
  | .ReadBytes n => (ReadBytes s n).2
  | .Skip n => (Skip s n).2
  | .ReadUint8 => (ReadUint8 s).2
  | .ReadUint16 => (ReadUint16 s).2
  | .ReadUint24 => (ReadUint24 s).2
  | .ReadUint32 => (ReadUint32 s).2

/-- The slice variable after a sequence of calls. -/
def GoSlice.afterAll (s : GoSlice) (ops : List SliceOp) : GoSlice :=
  ops.foldl (fun s1 op => s1.after op) s

/-! ## Reference notions of the specification -/

/-- The value `Σ_{i<k} s[i] · 2^(8·(k-1-i))` of the first `k` bytes of `s`, most
significant byte first (a missing byte counts as 0). -/
def beValue (k : Nat) (s : List Byte) : Nat :=
  ((List.range k).map fun i => (s.getD i 0).val * 2 ^ (8 * (k - 1 - i))).sum

/-- Modelled from the spec: the `w`-byte big-endian encoding of `v` (the write
side is not among the source files): byte `i` is `(v / 2^(8·(w-1-i))) mod 256`. -/
def bigEndian : Nat → Nat → List Byte
  | 0, _ => []
  | w + 1, v => ⟨(v / 2 ^ (8 * w)) % 256, Nat.mod_lt _ (by decide)⟩ :: bigEndian w v

/-! ## Properties -/

theorem GoSlice.len_mk (l : List Byte) : (GoSlice.mk l).len = l.length := rfl

theorem GoSlice.len_nil : GoSlice.nil.len = 0 := rfl

/-- What `ReadBytes` does when the guard lets the call through. -/
theorem Buffer.ReadBytes_nil (n : Int) (h : n = 0) :
    Buffer.ReadBytes ⟨.nil⟩ n = (.ret .nil, ⟨.nil⟩) := by
  subst h
  simp [Buffer.ReadBytes, GoSlice.sliceTo, GoSlice.sliceFrom, GoSlice.len,
    GoSlice.bytes]

theorem Buffer.ReadBytes_mk (l : List Byte) (n : Int) (h0 : 0 ≤ n)
    (hn : n ≤ (l.length : Int)) :
    Buffer.ReadBytes ⟨.mk l⟩ n
      = (.ret (.mk (l.take n.toNat)), ⟨.mk (l.drop n.toNat)⟩) := by
  have h1 : ¬ ((l.length : Int) < n ∨ n < 0) := by omega
  simp [Buffer.ReadBytes, GoSlice.sliceTo, GoSlice.sliceFrom, GoSlice.len,
    GoSlice.bytes, h1, h0, hn]

theorem Buffer.ReadBytes_fail (b : Buffer) (n : Int)
    (h : n < 0 ∨ (b.b.len : Int) < n) :
    b.ReadBytes n = (.ret .nil, b) := by
  have h1 : (b.b.len : Int) < n ∨ n < 0 := h.symm
  simp [Buffer.ReadBytes, h1]

/-! ### Integer assembly -/

theorem shl_or_eq (a b i : Nat) (h : b < 2 ^ i) : (a <<< i) ||| b = a * 2 ^ i + b := by
  rw [Nat.shiftLeft_eq, Nat.mul_comm, ← Nat.mul_add_lt_is_or h]

theorem be16 (a b : Nat) (ha : a < 256) (hb : b < 256) :
    ((a <<< 8) % 2 ^ 16) ||| b = a * 2 ^ 8 + b := by
  have h1 : (a <<< 8) % 2 ^ 16 = a <<< 8 := Nat.mod_eq_of_lt (by rw [Nat.shiftLeft_eq]; omega)
  rw [h1, shl_or_eq a b 8 (by omega)]

theorem be24 (a b c : Nat) (ha : a < 256) (hb : b < 256) (hc : c < 256) :
    (((a <<< 16) % 2 ^ 32) ||| ((b <<< 8) % 2 ^ 32)) ||| c
      = a * 2 ^ 16 + b * 2 ^ 8 + c := by
  have h1 : (a <<< 16) % 2 ^ 32 = a <<< 16 := Nat.mod_eq_of_lt (by rw [Nat.shiftLeft_eq]; omega)
  have h2 : (b <<< 8) % 2 ^ 32 = b <<< 8 := Nat.mod_eq_of_lt (by rw [Nat.shiftLeft_eq]; omega)
  rw [h1, h2, Nat.or_assoc, shl_or_eq b c 8 (by omega), shl_or_eq a _ 16 (by omega)]
  omega

theorem be32 (a b c d : Nat) (ha : a < 256) (hb : b < 256) (hc : c < 256) (hd : d < 256) :
    ((((a <<< 24) % 2 ^ 32) ||| ((b <<< 16) % 2 ^ 32)) ||| ((c <<< 8) % 2 ^ 32)) ||| d
      = a * 2 ^ 24 + b * 2 ^ 16 + c * 2 ^ 8 + d := by
  have h1 : (a <<< 24) % 2 ^ 32 = a <<< 24 := Nat.mod_eq_of_lt (by rw [Nat.shiftLeft_eq]; omega)
  have h2 : (b <<< 16) % 2 ^ 32 = b <<< 16 := Nat.mod_eq_of_lt (by rw [Nat.shiftLeft_eq]; omega)
  have h3 : (c <<< 8) % 2 ^ 32 = c <<< 8 := Nat.mod_eq_of_lt (by rw [Nat.shiftLeft_eq]; omega)
  rw [h1, h2, h3, Nat.or_assoc, Nat.or_assoc, shl_or_eq c d 8 (by omega),
    shl_or_eq b _ 16 (by omega), shl_or_eq a _ 24 (by omega)]
  omega

theorem exprUint8_cons (x0 : Byte) (r : List Byte) :
    exprUint8 (.mk (x0 :: r)) = .ret x0.val := by
  have h : exprUint8 (.mk (x0 :: r)) = .ret (x0.val % 2 ^ 8) := rfl
  have h2 : x0.val % 2 ^ 8 = x0.val := Nat.mod_eq_of_lt x0.isLt
  rw [h, h2]

theorem exprUint16_cons (x0 x1 : Byte) (r : List Byte) :
    exprUint16 (.mk (x0 :: x1 :: r)) = .ret (x0.val * 2 ^ 8 + x1.val) := by
  have h : exprUint16 (.mk (x0 :: x1 :: r))
      = .ret (((x0.val <<< 8) % 2 ^ 16) ||| x1.val) := rfl
  rw [h, be16 _ _ x0.isLt x1.isLt]

theorem exprUint24_cons (x0 x1 x2 : Byte) (r : List Byte) :
    exprUint24 (.mk (x0 :: x1 :: x2 :: r))
      = .ret (x0.val * 2 ^ 16 + x1.val * 2 ^ 8 + x2.val) := by
  have h : exprUint24 (.mk (x0 :: x1 :: x2 :: r))
      = .ret ((((x0.val <<< 16) % 2 ^ 32) ||| ((x1.val <<< 8) % 2 ^ 32)) ||| x2.val) := rfl
  rw [h, be24 _ _ _ x0.isLt x1.isLt x2.isLt]

theorem exprUint32_cons (x0 x1 x2 x3 : Byte) (r : List Byte) :
    exprUint32 (.mk (x0 :: x1 :: x2 :: x3 :: r))
      = .ret (x0.val * 2 ^ 24 + x1.val * 2 ^ 16 + x2.val * 2 ^ 8 + x3.val) := by
  have h : exprUint32 (.mk (x0 :: x1 :: x2 :: x3 :: r))
      = .ret (((((x0.val <<< 24) % 2 ^ 32) ||| ((x1.val <<< 16) % 2 ^ 32))
          ||| ((x2.val <<< 8) % 2 ^ 32)) ||| x3.val) := rfl
  rw [h, be32 _ _ _ _ x0.isLt x1.isLt x2.isLt x3.isLt]

theorem Buffer.readWith_mk (l : List Byte) (k : Nat) (expr : GoSlice → Outcome Nat) (x : Nat)
    (hk : k ≤ l.length) (hx : expr (.mk (l.take k)) = .ret x) :
    Buffer.readWith ⟨.mk l⟩ (k : Int) expr = (.ret (x, true), ⟨.mk (l.drop k)⟩) := by
  have h := Buffer.ReadBytes_mk l (k : Int) (by omega) (by omega)
  simp only [Int.toNat_ofNat] at h
  simp [Buffer.readWith, h, GoSlice.isNil, hx]

theorem Buffer.readWith_short (b : Buffer) (k : Nat) (expr : GoSlice → Outcome Nat)
    (hk : b.b.len < k) :
    b.readWith (k : Int) expr = (.ret (0, false), b) := by
  have h := Buffer.ReadBytes_fail b (k : Int) (Or.inr (by omega))
  simp [Buffer.readWith, h, GoSlice.isNil]

theorem beValue_one (x0 : Byte) (r : List Byte) : beValue 1 (x0 :: r) = x0.val := by
  simp [beValue, List.range_succ]

theorem beValue_two (x0 x1 : Byte) (r : List Byte) :
    beValue 2 (x0 :: x1 :: r) = x0.val * 2 ^ 8 + x1.val := by
  simp [beValue, List.range_succ]

theorem beValue_three (x0 x1 x2 : Byte) (r : List Byte) :
    beValue 3 (x0 :: x1 :: x2 :: r) = x0.val * 2 ^ 16 + x1.val * 2 ^ 8 + x2.val := by
  simp [beValue, List.range_succ]
  omega

theorem beValue_four (x0 x1 x2 x3 : Byte) (r : List Byte) :
    beValue 4 (x0 :: x1 :: x2 :: x3 :: r)
      = x0.val * 2 ^ 24 + x1.val * 2 ^ 16 + x2.val * 2 ^ 8 + x3.val := by
  simp [beValue, List.range_succ]
  omega

theorem Buffer.ReadUint8_mk (x0 : Byte) (r : List Byte) :
    Buffer.ReadUint8 ⟨.mk (x0 :: r)⟩ = (.ret (x0.val, true), ⟨.mk r⟩) :=
  Buffer.readWith_mk (x0 :: r) 1 exprUint8 _ (by simp) (exprUint8_cons x0 [])

theorem Buffer.ReadUint16_mk (x0 x1 : Byte) (r : List Byte) :
    Buffer.ReadUint16 ⟨.mk (x0 :: x1 :: r)⟩
      = (.ret (x0.val * 2 ^ 8 + x1.val, true), ⟨.mk r⟩) :=
  Buffer.readWith_mk (x0 :: x1 :: r) 2 exprUint16 _ (by simp) (exprUint16_cons x0 x1 [])

theorem Buffer.ReadUint24_mk (x0 x1 x2 : Byte) (r : List Byte) :
    Buffer.ReadUint24 ⟨.mk (x0 :: x1 :: x2 :: r)⟩
      = (.ret (x0.val * 2 ^ 16 + x1.val * 2 ^ 8 + x2.val, true), ⟨.mk r⟩) :=
  Buffer.readWith_mk (x0 :: x1 :: x2 :: r) 3 exprUint24 _ (by simp)
    (exprUint24_cons x0 x1 x2 [])

theorem Buffer.ReadUint32_mk (x0 x1 x2 x3 : Byte) (r : List Byte) :
    Buffer.ReadUint32 ⟨.mk (x0 :: x1 :: x2 :: x3 :: r)⟩
      = (.ret (x0.val * 2 ^ 24 + x1.val * 2 ^ 16 + x2.val * 2 ^ 8 + x3.val, true),
          ⟨.mk r⟩) :=
  Buffer.readWith_mk (x0 :: x1 :: x2 :: x3 :: r) 4 exprUint32 _ (by simp)
    (exprUint32_cons x0 x1 x2 x3 [])

/-- A Buffer holding at least one byte is a non-nil slice with a first byte. -/
theorem Buffer.of_one_le_len (b : Buffer) (h : 1 ≤ b.b.len) :
    ∃ x0 r, b = ⟨.mk (x0 :: r)⟩ := by
  obtain ⟨s⟩ := b
  cases s with
  | nil => simp [GoSlice.len, GoSlice.bytes] at h
  | mk l =>
    match l, h with
    | x0 :: r, _ => exact ⟨x0, r, rfl⟩

theorem Buffer.of_two_le_len (b : Buffer) (h : 2 ≤ b.b.len) :
    ∃ x0 x1 r, b = ⟨.mk (x0 :: x1 :: r)⟩ := by
  obtain ⟨x0, r, rfl⟩ := b.of_one_le_len (by omega)
  match r, h with
  | x1 :: r, _ => exact ⟨x0, x1, r, rfl⟩
  | [], h => simp [GoSlice.len, GoSlice.bytes] at h

theorem Buffer.of_three_le_len (b : Buffer) (h : 3 ≤ b.b.len) :
    ∃ x0 x1 x2 r, b = ⟨.mk (x0 :: x1 :: x2 :: r)⟩ := by
  obtain ⟨x0, x1, r, rfl⟩ := b.of_two_le_len (by omega)
  match r, h with
  | x2 :: r, _ => exact ⟨x0, x1, x2, r, rfl⟩
  | [], h => simp [GoSlice.len, GoSlice.bytes] at h

theorem Buffer.of_four_le_len (b : Buffer) (h : 4 ≤ b.b.len) :
    ∃ x0 x1 x2 x3 r, b = ⟨.mk (x0 :: x1 :: x2 :: x3 :: r)⟩ := by
  obtain ⟨x0, x1, x2, r, rfl⟩ := b.of_three_le_len (by omega)
  match r, h with
  | x3 :: r, _ => exact ⟨x0, x1, x2, x3, r, rfl⟩
  | [], h => simp [GoSlice.len, GoSlice.bytes] at h

/-! ### Decoding an encoded integer, totality and range of the readers -/

theorem Buffer.ReadUint8_bigEndian (v : Nat) (t : List Byte) (h : v < 2 ^ 8) :
    Buffer.ReadUint8 ⟨.mk (bigEndian 1 v ++ t)⟩ = (.ret (v, true), ⟨.mk t⟩) := by
  simp only [bigEndian, List.cons_append, List.nil_append, Buffer.ReadUint8_mk]
  have e : v / 2 ^ (8 * 0) % 256 = v := by omega
  rw [e]

theorem Buffer.ReadUint16_bigEndian (v : Nat) (t : List Byte) (h : v < 2 ^ 16) :
    Buffer.ReadUint16 ⟨.mk (bigEndian 2 v ++ t)⟩ = (.ret (v, true), ⟨.mk t⟩) := by
  simp only [bigEndian, List.cons_append, List.nil_append, Buffer.ReadUint16_mk]
  have e : v / 2 ^ (8 * 1) % 256 * 2 ^ 8 + v / 2 ^ (8 * 0) % 256 = v := by omega
  rw [e]

theorem Buffer.ReadUint24_bigEndian (v : Nat) (t : List Byte) (h : v < 2 ^ 24) :
    Buffer.ReadUint24 ⟨.mk (bigEndian 3 v ++ t)⟩ = (.ret (v, true), ⟨.mk t⟩) := by
  simp only [bigEndian, List.cons_append, List.nil_append, Buffer.ReadUint24_mk]
  have e : v / 2 ^ (8 * 2) % 256 * 2 ^ 16 + v / 2 ^ (8 * 1) % 256 * 2 ^ 8
      + v / 2 ^ (8 * 0) % 256 = v := by omega
  rw [e]

theorem Buffer.ReadUint32_bigEndian (v : Nat) (t : List Byte) (h : v < 2 ^ 32) :
    Buffer.ReadUint32 ⟨.mk (bigEndian 4 v ++ t)⟩ = (.ret (v, true), ⟨.mk t⟩) := by
  simp only [bigEndian, List.cons_append, List.nil_append, Buffer.ReadUint32_mk]
  have e : v / 2 ^ (8 * 3) % 256 * 2 ^ 24 + v / 2 ^ (8 * 2) % 256 * 2 ^ 16
      + v / 2 ^ (8 * 1) % 256 * 2 ^ 8 + v / 2 ^ (8 * 0) % 256 = v := by omega
  rw [e]

/-- Every call of `ReadUint8` returns, with a value below `2^8`. -/
theorem Buffer.ReadUint8_returns (b : Buffer) :
    ∃ x ok b1, b.ReadUint8 = (.ret (x, ok), b1) ∧ x < 2 ^ 8 := by
  by_cases h : 1 ≤ b.b.len
  · obtain ⟨x0, r, rfl⟩ := b.of_one_le_len h
    exact ⟨_, _, _, Buffer.ReadUint8_mk x0 r, x0.isLt⟩
  · exact ⟨0, false, b, Buffer.readWith_short b 1 exprUint8 (by omega), by omega⟩

theorem Buffer.ReadUint16_returns (b : Buffer) :
    ∃ x ok b1, b.ReadUint16 = (.ret (x, ok), b1) ∧ x < 2 ^ 16 := by
  by_cases h : 2 ≤ b.b.len
  · obtain ⟨x0, x1, r, rfl⟩ := b.of_two_le_len h
    refine ⟨_, _, _, Buffer.ReadUint16_mk x0 x1 r, ?_⟩
    have h0 := x0.isLt
    have h1 := x1.isLt
    omega
  · exact ⟨0, false, b, Buffer.readWith_short b 2 exprUint16 (by omega), by omega⟩

theorem Buffer.ReadUint24_returns (b : Buffer) :
    ∃ x ok b1, b.ReadUint24 = (.ret (x, ok), b1) ∧ x < 2 ^ 24 := by
  by_cases h : 3 ≤ b.b.len
  · obtain ⟨x0, x1, x2, r, rfl⟩ := b.of_three_le_len h
    refine ⟨_, _, _, Buffer.ReadUint24_mk x0 x1 x2 r, ?_⟩
    have h0 := x0.isLt
    have h1 := x1.isLt
    have h2 := x2.isLt
    omega
  · exact ⟨0, false, b, Buffer.readWith_short b 3 exprUint24 (by omega), by omega⟩

theorem Buffer.ReadUint32_returns (b : Buffer) :
    ∃ x ok b1, b.ReadUint32 = (.ret (x, ok), b1) ∧ x < 2 ^ 32 := by
  by_cases h : 4 ≤ b.b.len
  · obtain ⟨x0, x1, x2, x3, r, rfl⟩ := b.of_four_le_len h
    refine ⟨_, _, _, Buffer.ReadUint32_mk x0 x1 x2 x3 r, ?_⟩
    have h0 := x0.isLt
    have h1 := x1.isLt
    have h2 := x2.isLt
    have h3 := x3.isLt
    omega
  · exact ⟨0, false, b, Buffer.readWith_short b 4 exprUint32 (by omega), by omega⟩

/-- Every call of `ReadBytes` returns: the guard covers both slice expressions. -/
theorem Buffer.ReadBytes_returns (b : Buffer) (n : Int) :
    ∃ v b1, b.ReadBytes n = (.ret v, b1) := by
  by_cases h : n < 0 ∨ (b.b.len : Int) < n
  · exact ⟨_, _, Buffer.ReadBytes_fail b n h⟩
  · obtain ⟨s⟩ := b
    cases s with
    | nil =>
      have hz : n = 0 := by
        simp only [GoSlice.len_nil] at h
        omega
      exact ⟨_, _, Buffer.ReadBytes_nil n hz⟩
    | mk l =>
      simp only [GoSlice.len_mk] at h
      exact ⟨_, _, Buffer.ReadBytes_mk l n (by omega) (by omega)⟩

/-- With a 64-bit `int`, `int(l)` is `l` itself for every value below `2^63`. -/
theorem toInt_of_lt (l : Nat) (h : l < 2 ^ 63) : toInt l = (l : Int) := by
  have e : l % 2 ^ 64 = l := Nat.mod_eq_of_lt (by omega)
  simp only [toInt, intSize, e]
  rw [if_pos (by omega)]

/-! ### `ReadInt` and `ReadVector` -/

theorem intResult_ret (x : Nat) (ok : Bool) (b1 : Buffer) (h : x < 2 ^ 63) :
    intResult (.ret (x, ok), b1) = (.ret ((x : Int), ok), b1) := by
  simp only [intResult, toInt_of_lt x h]

theorem Buffer.ReadInt_8 (b : Buffer) : b.ReadInt 8 = intResult b.ReadUint8 := by
  simp [Buffer.ReadInt]

theorem Buffer.ReadInt_16 (b : Buffer) : b.ReadInt 16 = intResult b.ReadUint16 := by
  simp [Buffer.ReadInt]

theorem Buffer.ReadInt_24 (b : Buffer) : b.ReadInt 24 = intResult b.ReadUint24 := by
  simp [Buffer.ReadInt]

theorem Buffer.ReadInt_32 (b : Buffer) : b.ReadInt 32 = intResult b.ReadUint32 := by
  simp [Buffer.ReadInt]

theorem Buffer.ReadInt_invalid (b : Buffer) (bitSize : Int)
    (h : bitSize ≠ 8 ∧ bitSize ≠ 16 ∧ bitSize ≠ 24 ∧ bitSize ≠ 32) :
    b.ReadInt bitSize = (.panic "invalid bitSize value", b) := by
  simp [Buffer.ReadInt, h.1, h.2.1, h.2.2.1, h.2.2.2]

/-- The length field decoded and the payload is there. -/
theorem Buffer.ReadVector_payload (b : Buffer) (bitSize : Int) (n : Nat) (l : List Byte)
    (h : b.ReadInt bitSize = (.ret ((n : Int), true), ⟨.mk l⟩)) (hn : n ≤ l.length) :
    b.ReadVector bitSize = (.ret (.mk (l.take n), true), ⟨.mk (l.drop n)⟩) := by
  have hb := Buffer.ReadBytes_mk l (n : Int) (by omega) (by omega)
  simp only [Int.toNat_ofNat] at hb
  simp [Buffer.ReadVector, h, hb, GoSlice.isNil]

/-- The length field decoded and the payload is too short. -/
theorem Buffer.ReadVector_payload_short (b : Buffer) (bitSize : Int) (n : Nat)
    (l : List Byte) (h : b.ReadInt bitSize = (.ret ((n : Int), true), ⟨.mk l⟩))
    (hn : l.length < n) :
    b.ReadVector bitSize = (.ret (.mk [], false), ⟨.mk l⟩) := by
  have hb := Buffer.ReadBytes_fail ⟨.mk l⟩ (n : Int)
    (Or.inr (by simp only [GoSlice.len_mk]; omega))
  simp [Buffer.ReadVector, h, hb, GoSlice.isNil]

/-- The length field could not be read. -/
theorem Buffer.ReadVector_length_short (b : Buffer) (bitSize : Int) (n : Int) (b1 : Buffer)
    (h : b.ReadInt bitSize = (.ret (n, false), b1)) :
    b.ReadVector bitSize = (.ret (.mk [], false), b1) := by
  simp [Buffer.ReadVector, h]

/-- The call `ReadVector` returns whenever `ReadInt` does. -/
theorem Buffer.ReadVector_returns (b : Buffer) (bitSize : Int)
    (h : (b.ReadInt bitSize).1.returns = true) :
    (b.ReadVector bitSize).1.returns = true := by
  unfold Buffer.ReadVector
  rcases hr : b.ReadInt bitSize with ⟨o, b1⟩
  rw [hr] at h
  cases o with
  | panic m => simp [Outcome.returns] at h
  | ret p =>
    obtain ⟨n, ok⟩ := p
    cases ok with
    | false => simp [Outcome.returns]
    | true =>
      obtain ⟨v, b2, hv⟩ := b1.ReadBytes_returns n
      cases hnil : v.isNil <;> simp [hv, hnil, Outcome.returns]

theorem intResult_returns (r : Outcome (Nat × Bool) × Buffer)
    (h : ∃ x ok b1, r = (.ret (x, ok), b1)) : (intResult r).1.returns = true := by
  obtain ⟨x, ok, b1, rfl⟩ := h
  rfl

/-! ### Claims -/

/-- C1: for every Buffer with remaining span `s` and every `n` with
`0 ≤ n ≤ len(s)`, `ReadBytes(n)` returns the first `n` bytes of `s` (the slice
`s[:n]`, nil exactly when `s` is) and leaves the remaining span `s[n:]`. -/
theorem C1_ReadBytes_prefix (b : Buffer) (n : Int) (h0 : 0 ≤ n)
    (hn : n ≤ (b.b.len : Int)) :
    ∃ v r, b.ReadBytes n = (Outcome.ret v, Buffer.mk r) ∧
      v.bytes = b.b.bytes.take n.toNat ∧ r.bytes = b.b.bytes.drop n.toNat ∧
      v.isNil = b.b.isNil ∧ r.isNil = b.b.isNil := by
  obtain ⟨s⟩ := b
  cases s with
  | nil =>
    have hz : n = 0 := by
      simp only [GoSlice.len_nil] at hn
      omega
    exact ⟨.nil, .nil, Buffer.ReadBytes_nil n hz, by simp [GoSlice.bytes], by
      simp [GoSlice.bytes], rfl, rfl⟩
  | mk l =>
    exact ⟨_, _, Buffer.ReadBytes_mk l n h0 hn, rfl, rfl, rfl, rfl⟩

theorem C1_ReadBytes_prefix_witness :
    ∃ v r, Buffer.ReadBytes ⟨.mk [1, 2, 3]⟩ 2 = (Outcome.ret v, Buffer.mk r) ∧
      v.bytes = [1, 2] ∧ r.bytes = [3] ∧ v.isNil = false ∧ r.isNil = false :=
  C1_ReadBytes_prefix ⟨.mk [1, 2, 3]⟩ 2 (by decide) (by decide)

/-- C2: for every Buffer with remaining span `s` and every `n` with `n < 0` or
`n > len(s)`, `ReadBytes(n)` returns nil and the Buffer is left exactly as it
was. -/
theorem C2_ReadBytes_out_of_range (b : Buffer) (n : Int)
    (h : n < 0 ∨ (b.b.len : Int) < n) :
    b.ReadBytes n = (Outcome.ret GoSlice.nil, b) :=
  Buffer.ReadBytes_fail b n h

theorem C2_ReadBytes_out_of_range_witness :
    Buffer.ReadBytes ⟨.mk [1, 2, 3]⟩ 4 = (Outcome.ret GoSlice.nil, ⟨.mk [1, 2, 3]⟩) ∧
      Buffer.ReadBytes ⟨.mk [1, 2, 3]⟩ (-1)
        = (Outcome.ret GoSlice.nil, ⟨.mk [1, 2, 3]⟩) :=
  ⟨C2_ReadBytes_out_of_range ⟨.mk [1, 2, 3]⟩ 4 (Or.inr (by decide)),
   C2_ReadBytes_out_of_range ⟨.mk [1, 2, 3]⟩ (-1) (Or.inl (by decide))⟩

/-- Calling `Skip` on a Buffer whose slice is not nil: true exactly when
`0 ≤ n ≤ len(s)`. -/
theorem Buffer.Skip_mk (l : List Byte) (n : Int) :
    (0 ≤ n ∧ n ≤ (l.length : Int) →
      Buffer.Skip ⟨.mk l⟩ n = (.ret true, ⟨.mk (l.drop n.toNat)⟩)) ∧
    (¬ (0 ≤ n ∧ n ≤ (l.length : Int)) →
      Buffer.Skip ⟨.mk l⟩ n = (.ret false, ⟨.mk l⟩)) := by
  constructor
  · rintro ⟨h0, hn⟩
    simp [Buffer.Skip, Buffer.ReadBytes_mk l n h0 hn, GoSlice.isNil]
  · intro h
    have h1 : n < 0 ∨ (((⟨.mk l⟩ : Buffer).b.len : Int)) < n := by
      simp only [GoSlice.len_mk]
      omega
    simp [Buffer.Skip, Buffer.ReadBytes_fail _ n h1, GoSlice.isNil]

/-- C3: on the zero-value Buffer (nil slice) `Skip(0)` passes the bounds guard,
slices the nil slice, gets nil back and reports `false`, although
`0 ≤ 0 ≤ len(s)`; the Buffer is unchanged. -/
theorem C3_Skip_zero_on_nil_reports_false :
    Buffer.Skip ⟨.nil⟩ 0 = (Outcome.ret false, ⟨.nil⟩) ∧
      Buffer.Skip ⟨.mk []⟩ 0 = (Outcome.ret true, ⟨.mk []⟩) := by
  constructor
  · simp [Buffer.Skip, Buffer.ReadBytes_nil 0 rfl, GoSlice.isNil]
  · exact (Buffer.Skip_mk [] 0).1 (by decide)

/-- C4: for k in 1..4 and every Buffer whose remaining span `s` has at least `k`
bytes, the width-8k reader returns ok = true and the value
`Σ_{i<k} s[i]·2^(8·(k-1-i))`, and leaves the remaining span `s[k:]`. -/
theorem C4_ReadUint_big_endian_value (b : Buffer) :
    (1 ≤ b.b.len → b.ReadUint8
      = (Outcome.ret (beValue 1 b.b.bytes, true), ⟨.mk (b.b.bytes.drop 1)⟩)) ∧
    (2 ≤ b.b.len → b.ReadUint16
      = (Outcome.ret (beValue 2 b.b.bytes, true), ⟨.mk (b.b.bytes.drop 2)⟩)) ∧
    (3 ≤ b.b.len → b.ReadUint24
      = (Outcome.ret (beValue 3 b.b.bytes, true), ⟨.mk (b.b.bytes.drop 3)⟩)) ∧
    (4 ≤ b.b.len → b.ReadUint32
      = (Outcome.ret (beValue 4 b.b.bytes, true), ⟨.mk (b.b.bytes.drop 4)⟩)) := by
  refine ⟨?_, ?_, ?_, ?_⟩
  · intro h
    obtain ⟨x0, r, rfl⟩ := b.of_one_le_len h
    rw [Buffer.ReadUint8_mk]
    simp only [GoSlice.bytes, beValue_one, List.drop_succ_cons, List.drop_zero]
  · intro h
    obtain ⟨x0, x1, r, rfl⟩ := b.of_two_le_len h
    rw [Buffer.ReadUint16_mk]
    simp only [GoSlice.bytes, beValue_two, List.drop_succ_cons, List.drop_zero]
  · intro h
    obtain ⟨x0, x1, x2, r, rfl⟩ := b.of_three_le_len h
    rw [Buffer.ReadUint24_mk]
    simp only [GoSlice.bytes, beValue_three, List.drop_succ_cons, List.drop_zero]
  · intro h
    obtain ⟨x0, x1, x2, x3, r, rfl⟩ := b.of_four_le_len h
    rw [Buffer.ReadUint32_mk]
    simp only [GoSlice.bytes, beValue_four, List.drop_succ_cons, List.drop_zero]

theorem C4_ReadUint_big_endian_value_witness :
    Buffer.ReadUint8 ⟨.mk [1, 2, 3, 4, 5]⟩ = (Outcome.ret (1, true), ⟨.mk [2, 3, 4, 5]⟩) ∧
    Buffer.ReadUint16 ⟨.mk [1, 2, 3, 4, 5]⟩ = (Outcome.ret (258, true), ⟨.mk [3, 4, 5]⟩) ∧
    Buffer.ReadUint24 ⟨.mk [1, 2, 3, 4, 5]⟩ = (Outcome.ret (66051, true), ⟨.mk [4, 5]⟩) ∧
    Buffer.ReadUint32 ⟨.mk [1, 2, 3, 4, 5]⟩ = (Outcome.ret (16909060, true), ⟨.mk [5]⟩) :=
  ⟨(C4_ReadUint_big_endian_value ⟨.mk [1, 2, 3, 4, 5]⟩).1 (by decide),
   (C4_ReadUint_big_endian_value ⟨.mk [1, 2, 3, 4, 5]⟩).2.1 (by decide),
   (C4_ReadUint_big_endian_value ⟨.mk [1, 2, 3, 4, 5]⟩).2.2.1 (by decide),
   (C4_ReadUint_big_endian_value ⟨.mk [1, 2, 3, 4, 5]⟩).2.2.2 (by decide)⟩

/-- C5: round trip. For w in 1..4, every `v < 2^(8w)` and every tail `t`, the
width-w reader on a Buffer over (the w-byte big-endian encoding of `v`) ++ `t`
returns `(v, true)` and leaves the remaining span `t`; and on every Buffer
`ReadUint24` returns a value that is at most `2^24 - 1`. -/
theorem C5_round_trip (v : Nat) (t : List Byte) :
    (v < 2 ^ 8 → Buffer.ReadUint8 ⟨.mk (bigEndian 1 v ++ t)⟩
      = (Outcome.ret (v, true), ⟨.mk t⟩)) ∧
    (v < 2 ^ 16 → Buffer.ReadUint16 ⟨.mk (bigEndian 2 v ++ t)⟩
      = (Outcome.ret (v, true), ⟨.mk t⟩)) ∧
    (v < 2 ^ 24 → Buffer.ReadUint24 ⟨.mk (bigEndian 3 v ++ t)⟩
      = (Outcome.ret (v, true), ⟨.mk t⟩)) ∧
    (v < 2 ^ 32 → Buffer.ReadUint32 ⟨.mk (bigEndian 4 v ++ t)⟩
      = (Outcome.ret (v, true), ⟨.mk t⟩)) ∧
    (∀ b : Buffer, ∃ x ok b1,
      b.ReadUint24 = (Outcome.ret (x, ok), b1) ∧ x ≤ 2 ^ 24 - 1) := by
  refine ⟨Buffer.ReadUint8_bigEndian v t, Buffer.ReadUint16_bigEndian v t,
    Buffer.ReadUint24_bigEndian v t, Buffer.ReadUint32_bigEndian v t, ?_⟩
  intro b
  obtain ⟨x, ok, b1, h, hx⟩ := b.ReadUint24_returns
  exact ⟨x, ok, b1, h, by omega⟩

theorem C5_round_trip_witness :
    Buffer.ReadUint8 ⟨.mk ([200] ++ [9])⟩ = (Outcome.ret (200, true), ⟨.mk [9]⟩) ∧
    Buffer.ReadUint16 ⟨.mk ([0, 200] ++ [9])⟩ = (Outcome.ret (200, true), ⟨.mk [9]⟩) ∧
    Buffer.ReadUint24 ⟨.mk ([0, 0, 200] ++ [9])⟩ = (Outcome.ret (200, true), ⟨.mk [9]⟩) ∧
    Buffer.ReadUint32 ⟨.mk ([0, 0, 0, 200] ++ [9])⟩
      = (Outcome.ret (200, true), ⟨.mk [9]⟩) :=
  ⟨(C5_round_trip 200 [9]).1 (by decide), (C5_round_trip 200 [9]).2.1 (by decide),
   (C5_round_trip 200 [9]).2.2.1 (by decide), (C5_round_trip 200 [9]).2.2.2.1 (by decide)⟩

/-- C6: for k in 1..4 and every Buffer whose remaining span has fewer than `k`
bytes (the nil slice included), the width-8k reader returns `(0, false)` and
leaves the Buffer exactly as it was. -/
theorem C6_ReadUint_short (b : Buffer) :
    (b.b.len < 1 → b.ReadUint8 = (Outcome.ret (0, false), b)) ∧
    (b.b.len < 2 → b.ReadUint16 = (Outcome.ret (0, false), b)) ∧
    (b.b.len < 3 → b.ReadUint24 = (Outcome.ret (0, false), b)) ∧
    (b.b.len < 4 → b.ReadUint32 = (Outcome.ret (0, false), b)) :=
  ⟨fun h => Buffer.readWith_short b 1 exprUint8 h,
   fun h => Buffer.readWith_short b 2 exprUint16 h,
   fun h => Buffer.readWith_short b 3 exprUint24 h,
   fun h => Buffer.readWith_short b 4 exprUint32 h⟩

theorem C6_ReadUint_short_witness :
    Buffer.ReadUint8 ⟨.nil⟩ = (Outcome.ret (0, false), ⟨.nil⟩) ∧
    Buffer.ReadUint16 ⟨.mk [7]⟩ = (Outcome.ret (0, false), ⟨.mk [7]⟩) ∧
    Buffer.ReadUint24 ⟨.mk [7, 8]⟩ = (Outcome.ret (0, false), ⟨.mk [7, 8]⟩) ∧
    Buffer.ReadUint32 ⟨.mk [7, 8, 9]⟩ = (Outcome.ret (0, false), ⟨.mk [7, 8, 9]⟩) :=
  ⟨(C6_ReadUint_short ⟨.nil⟩).1 (by decide), (C6_ReadUint_short ⟨.mk [7]⟩).2.1 (by decide),
   (C6_ReadUint_short ⟨.mk [7, 8]⟩).2.2.1 (by decide),
   (C6_ReadUint_short ⟨.mk [7, 8, 9]⟩).2.2.2 (by decide)⟩

/-- C7: for every bitSize w in {8,16,24,32}, every payload `p` of length
`n < 2^w` (also `n = 0`) and every tail `t`, `ReadVector(w)` on a Buffer over
(the w/8-byte big-endian encoding of `n`) ++ `p` ++ `t` returns `(p, true)` and
leaves the remaining span `t`. -/
theorem C7_ReadVector_payload (p t : List Byte) :
    (p.length < 2 ^ 8 → Buffer.ReadVector ⟨.mk (bigEndian 1 p.length ++ (p ++ t))⟩ 8
      = (Outcome.ret (GoSlice.mk p, true), ⟨.mk t⟩)) ∧
    (p.length < 2 ^ 16 → Buffer.ReadVector ⟨.mk (bigEndian 2 p.length ++ (p ++ t))⟩ 16
      = (Outcome.ret (GoSlice.mk p, true), ⟨.mk t⟩)) ∧
    (p.length < 2 ^ 24 → Buffer.ReadVector ⟨.mk (bigEndian 3 p.length ++ (p ++ t))⟩ 24
      = (Outcome.ret (GoSlice.mk p, true), ⟨.mk t⟩)) ∧
    (p.length < 2 ^ 32 → Buffer.ReadVector ⟨.mk (bigEndian 4 p.length ++ (p ++ t))⟩ 32
      = (Outcome.ret (GoSlice.mk p, true), ⟨.mk t⟩)) := by
  have key : ∀ (b : Buffer) (bitSize : Int),
      b.ReadInt bitSize = (.ret ((p.length : Int), true), ⟨.mk (p ++ t)⟩) →
      b.ReadVector bitSize = (Outcome.ret (GoSlice.mk p, true), ⟨.mk t⟩) := by
    intro b bitSize h
    have hv := Buffer.ReadVector_payload b bitSize p.length (p ++ t) h (by simp)
    simpa using hv
  refine ⟨?_, ?_, ?_, ?_⟩
  · intro h
    apply key
    rw [Buffer.ReadInt_8, Buffer.ReadUint8_bigEndian _ _ h, intResult_ret _ _ _ (by omega)]
  · intro h
    apply key
    rw [Buffer.ReadInt_16, Buffer.ReadUint16_bigEndian _ _ h, intResult_ret _ _ _ (by omega)]
  · intro h
    apply key
    rw [Buffer.ReadInt_24, Buffer.ReadUint24_bigEndian _ _ h, intResult_ret _ _ _ (by omega)]
  · intro h
    apply key
    rw [Buffer.ReadInt_32, Buffer.ReadUint32_bigEndian _ _ h, intResult_ret _ _ _ (by omega)]

theorem C7_ReadVector_payload_witness :
    Buffer.ReadVector ⟨.mk ([2] ++ ([7, 8] ++ [9]))⟩ 8
      = (Outcome.ret (GoSlice.mk [7, 8], true), ⟨.mk [9]⟩) ∧
    Buffer.ReadVector ⟨.mk ([0, 2] ++ ([7, 8] ++ [9]))⟩ 16
      = (Outcome.ret (GoSlice.mk [7, 8], true), ⟨.mk [9]⟩) ∧
    Buffer.ReadVector ⟨.mk ([0, 0, 2] ++ ([7, 8] ++ [9]))⟩ 24
      = (Outcome.ret (GoSlice.mk [7, 8], true), ⟨.mk [9]⟩) ∧
    Buffer.ReadVector ⟨.mk ([0, 0, 0, 0] ++ ([] ++ []))⟩ 32
      = (Outcome.ret (GoSlice.mk [], true), ⟨.mk []⟩) :=
  ⟨(C7_ReadVector_payload [7, 8] [9]).1 (by decide),
   (C7_ReadVector_payload [7, 8] [9]).2.1 (by decide),
   (C7_ReadVector_payload [7, 8] [9]).2.2.1 (by decide),
   (C7_ReadVector_payload [] []).2.2.2 (by decide)⟩

/-- C8: for every bitSize w in {8,16,24,32} and every Buffer whose remaining
span `s` has at least w/8 bytes, if the length decoded from the first w/8 bytes
is greater than `len(s) - w/8`, `ReadVector(w)` returns the empty non-nil slice
with ok = false and leaves the remaining span `s[w/8:]`: the length field stays
consumed, no payload byte is. -/
theorem C8_ReadVector_length_not_restored (b : Buffer) :
    (1 ≤ b.b.len → b.b.len - 1 < beValue 1 b.b.bytes → b.ReadVector 8
      = (Outcome.ret (GoSlice.mk [], false), ⟨.mk (b.b.bytes.drop 1)⟩)) ∧
    (2 ≤ b.b.len → b.b.len - 2 < beValue 2 b.b.bytes → b.ReadVector 16
      = (Outcome.ret (GoSlice.mk [], false), ⟨.mk (b.b.bytes.drop 2)⟩)) ∧
    (3 ≤ b.b.len → b.b.len - 3 < beValue 3 b.b.bytes → b.ReadVector 24
      = (Outcome.ret (GoSlice.mk [], false), ⟨.mk (b.b.bytes.drop 3)⟩)) ∧
    (4 ≤ b.b.len → b.b.len - 4 < beValue 4 b.b.bytes → b.ReadVector 32
      = (Outcome.ret (GoSlice.mk [], false), ⟨.mk (b.b.bytes.drop 4)⟩)) := by
  refine ⟨?_, ?_, ?_, ?_⟩
  · intro h hn
    obtain ⟨x0, r, rfl⟩ := b.of_one_le_len h
    simp only [GoSlice.len, GoSlice.bytes, beValue_one, List.length_cons,
      List.drop_succ_cons, List.drop_zero] at hn ⊢
    have hx := x0.isLt
    apply Buffer.ReadVector_payload_short _ _ x0.val r _ (by omega)
    rw [Buffer.ReadInt_8, Buffer.ReadUint8_mk, intResult_ret _ _ _ (by omega)]
  · intro h hn
    obtain ⟨x0, x1, r, rfl⟩ := b.of_two_le_len h
    simp only [GoSlice.len, GoSlice.bytes, beValue_two, List.length_cons,
      List.drop_succ_cons, List.drop_zero] at hn ⊢
    have h0 := x0.isLt
    have h1 := x1.isLt
    apply Buffer.ReadVector_payload_short _ _ (x0.val * 2 ^ 8 + x1.val) r _ (by omega)
    rw [Buffer.ReadInt_16, Buffer.ReadUint16_mk, intResult_ret _ _ _ (by omega)]
  · intro h hn
    obtain ⟨x0, x1, x2, r, rfl⟩ := b.of_three_le_len h
    simp only [GoSlice.len, GoSlice.bytes, beValue_three, List.length_cons,
      List.drop_succ_cons, List.drop_zero] at hn ⊢
    have h0 := x0.isLt
    have h1 := x1.isLt
    have h2 := x2.isLt
    apply Buffer.ReadVector_payload_short _ _ (x0.val * 2 ^ 16 + x1.val * 2 ^ 8 + x2.val) r _ (by omega)
    rw [Buffer.ReadInt_24, Buffer.ReadUint24_mk, intResult_ret _ _ _ (by omega)]
  · intro h hn
    obtain ⟨x0, x1, x2, x3, r, rfl⟩ := b.of_four_le_len h
    simp only [GoSlice.len, GoSlice.bytes, beValue_four, List.length_cons,
      List.drop_succ_cons, List.drop_zero] at hn ⊢
    have h0 := x0.isLt
    have h1 := x1.isLt
    have h2 := x2.isLt
    have h3 := x3.isLt
    apply Buffer.ReadVector_payload_short _ _ (x0.val * 2 ^ 24 + x1.val * 2 ^ 16 + x2.val * 2 ^ 8 + x3.val) r _ (by omega)
    rw [Buffer.ReadInt_32, Buffer.ReadUint32_mk, intResult_ret _ _ _ (by omega)]

theorem C8_ReadVector_length_not_restored_witness :
    Buffer.ReadVector ⟨.mk [3, 7, 8]⟩ 8
      = (Outcome.ret (GoSlice.mk [], false), ⟨.mk [7, 8]⟩) ∧
    Buffer.ReadVector ⟨.mk [0, 3, 7, 8]⟩ 16
      = (Outcome.ret (GoSlice.mk [], false), ⟨.mk [7, 8]⟩) ∧
    Buffer.ReadVector ⟨.mk [0, 0, 3, 7, 8]⟩ 24
      = (Outcome.ret (GoSlice.mk [], false), ⟨.mk [7, 8]⟩) ∧
    Buffer.ReadVector ⟨.mk [255, 0, 0, 3]⟩ 32
      = (Outcome.ret (GoSlice.mk [], false), ⟨.mk []⟩) :=
  ⟨(C8_ReadVector_length_not_restored ⟨.mk [3, 7, 8]⟩).1 (by decide) (by decide),
   (C8_ReadVector_length_not_restored ⟨.mk [0, 3, 7, 8]⟩).2.1 (by decide) (by decide),
   (C8_ReadVector_length_not_restored ⟨.mk [0, 0, 3, 7, 8]⟩).2.2.1 (by decide) (by decide),
   (C8_ReadVector_length_not_restored ⟨.mk [255, 0, 0, 3]⟩).2.2.2 (by decide) (by decide)⟩

/-- C9: for every bitSize outside {8,16,24,32} and every Buffer, `ReadInt` and
`ReadVector` panic with "invalid bitSize value" (they do not return a
`(_, false)` result) and the Buffer is as it was when they do; for a bitSize in
{8,16,24,32} both return on every Buffer. -/
theorem C9_invalid_bitSize_panics (b : Buffer) (bitSize : Int) :
    (bitSize ≠ 8 ∧ bitSize ≠ 16 ∧ bitSize ≠ 24 ∧ bitSize ≠ 32 →
      b.ReadInt bitSize = (Outcome.panic "invalid bitSize value", b) ∧
      b.ReadVector bitSize = (Outcome.panic "invalid bitSize value", b)) ∧
    (bitSize = 8 ∨ bitSize = 16 ∨ bitSize = 24 ∨ bitSize = 32 →
      (b.ReadInt bitSize).1.returns = true ∧ (b.ReadVector bitSize).1.returns = true) := by
  constructor
  · intro h
    have hi := Buffer.ReadInt_invalid b bitSize h
    refine ⟨hi, ?_⟩
    simp [Buffer.ReadVector, hi]
  · intro h
    have hi : (b.ReadInt bitSize).1.returns = true := by
      rcases h with rfl | rfl | rfl | rfl
      · rw [Buffer.ReadInt_8]
        obtain ⟨x, ok, b1, hx, _⟩ := b.ReadUint8_returns
        exact intResult_returns _ ⟨x, ok, b1, hx⟩
      · rw [Buffer.ReadInt_16]
        obtain ⟨x, ok, b1, hx, _⟩ := b.ReadUint16_returns
        exact intResult_returns _ ⟨x, ok, b1, hx⟩
      · rw [Buffer.ReadInt_24]
        obtain ⟨x, ok, b1, hx, _⟩ := b.ReadUint24_returns
        exact intResult_returns _ ⟨x, ok, b1, hx⟩
      · rw [Buffer.ReadInt_32]
        obtain ⟨x, ok, b1, hx, _⟩ := b.ReadUint32_returns
        exact intResult_returns _ ⟨x, ok, b1, hx⟩
    exact ⟨hi, Buffer.ReadVector_returns b bitSize hi⟩

theorem C9_invalid_bitSize_panics_witness :
    (Buffer.ReadInt ⟨.mk [1, 2]⟩ 12 = (Outcome.panic "invalid bitSize value", ⟨.mk [1, 2]⟩) ∧
      Buffer.ReadVector ⟨.mk [1, 2]⟩ 12
        = (Outcome.panic "invalid bitSize value", ⟨.mk [1, 2]⟩)) ∧
    ((Buffer.ReadInt ⟨.nil⟩ 16).1.returns = true ∧
      (Buffer.ReadVector ⟨.nil⟩ 16).1.returns = true) :=
  ⟨(C9_invalid_bitSize_panics ⟨.mk [1, 2]⟩ 12).1 (by decide),
   (C9_invalid_bitSize_panics ⟨.nil⟩ 16).2 (by decide)⟩

/-- C10: for every bitSize w in {8,16,24,32} and every Buffer, `ReadInt(w)`
returns the success flag and leaves the remaining span of the width-specific
reader run on the same Buffer, and its int result is the unsigned value
of that reader; with the 64-bit `int` the result satisfies `0 ≤ result < 2^w`. -/
theorem C10_ReadInt_agrees_with_reader (b : Buffer) :
    (∃ x ok b1, b.ReadUint8 = (Outcome.ret (x, ok), b1) ∧
      b.ReadInt 8 = (Outcome.ret ((x : Int), ok), b1) ∧ 0 ≤ (x : Int) ∧ (x : Int) < 2 ^ 8) ∧
    (∃ x ok b1, b.ReadUint16 = (Outcome.ret (x, ok), b1) ∧
      b.ReadInt 16 = (Outcome.ret ((x : Int), ok), b1) ∧ 0 ≤ (x : Int) ∧ (x : Int) < 2 ^ 16) ∧
    (∃ x ok b1, b.ReadUint24 = (Outcome.ret (x, ok), b1) ∧
      b.ReadInt 24 = (Outcome.ret ((x : Int), ok), b1) ∧ 0 ≤ (x : Int) ∧ (x : Int) < 2 ^ 24) ∧
    (∃ x ok b1, b.ReadUint32 = (Outcome.ret (x, ok), b1) ∧
      b.ReadInt 32 = (Outcome.ret ((x : Int), ok), b1) ∧ 0 ≤ (x : Int) ∧ (x : Int) < 2 ^ 32) := by
  refine ⟨?_, ?_, ?_, ?_⟩
  · obtain ⟨x, ok, b1, hx, hlt⟩ := b.ReadUint8_returns
    refine ⟨x, ok, b1, hx, ?_, by omega, by omega⟩
    rw [Buffer.ReadInt_8, hx, intResult_ret _ _ _ (by omega)]
  · obtain ⟨x, ok, b1, hx, hlt⟩ := b.ReadUint16_returns
    refine ⟨x, ok, b1, hx, ?_, by omega, by omega⟩
    rw [Buffer.ReadInt_16, hx, intResult_ret _ _ _ (by omega)]
  · obtain ⟨x, ok, b1, hx, hlt⟩ := b.ReadUint24_returns
    refine ⟨x, ok, b1, hx, ?_, by omega, by omega⟩
    rw [Buffer.ReadInt_24, hx, intResult_ret _ _ _ (by omega)]
  · obtain ⟨x, ok, b1, hx, hlt⟩ := b.ReadUint32_returns
    refine ⟨x, ok, b1, hx, ?_, by omega, by omega⟩
    rw [Buffer.ReadInt_32, hx, intResult_ret _ _ _ (by omega)]

/-! ### The timestamp reader -/

theorem toInt64_of_lt (v : Nat) (h : v < 2 ^ 63) : toInt64 v = (v : Int) := by
  have e : v % 2 ^ 64 = v := Nat.mod_eq_of_lt (by omega)
  simp only [toInt64, e]
  rw [if_pos (by omega)]

theorem Buffer.ReadGMTUnixTime32_mk (x0 x1 x2 x3 : Byte) (r : List Byte) :
    Buffer.ReadGMTUnixTime32 ⟨.mk (x0 :: x1 :: x2 :: x3 :: r)⟩
      = (.ret (.unix ((x0.val * 2 ^ 24 + x1.val * 2 ^ 16 + x2.val * 2 ^ 8 + x3.val : Nat) : Int)
          0, true), ⟨.mk r⟩) := by
  have h0 := x0.isLt
  have h1 := x1.isLt
  have h2 := x2.isLt
  have h3 := x3.isLt
  simp only [Buffer.ReadGMTUnixTime32, Buffer.ReadUint32_mk]
  rw [toInt64_of_lt _ (by omega)]
  rfl

theorem Buffer.ReadGMTUnixTime32_short (b : Buffer) (h : b.b.len < 4) :
    b.ReadGMTUnixTime32 = (.ret (Time.zero, false), b) := by
  have e : b.ReadUint32 = (.ret (0, false), b) := Buffer.readWith_short b 4 exprUint32 h
  simp [Buffer.ReadGMTUnixTime32, e]

/-! ### The functions on a caller-owned slice against the methods -/

theorem ReadBytes_eq_method (s : GoSlice) (n : Int) :
    ReadBytes s n = ((Buffer.ReadBytes ⟨s⟩ n).1, (Buffer.ReadBytes ⟨s⟩ n).2.b) := by
  unfold ReadBytes Buffer.ReadBytes
  by_cases h : (s.len : Int) < n ∨ n < 0
  · simp only [h, if_true]
  · simp only [h, if_false]
    cases s.sliceTo n with
    | panic m => rfl
    | ret v =>
      cases s.sliceFrom n with
      | panic m => rfl
      | ret r => rfl

theorem Skip_eq_method (s : GoSlice) (n : Int) :
    Skip s n = ((Buffer.Skip ⟨s⟩ n).1, (Buffer.Skip ⟨s⟩ n).2.b) := by
  unfold Skip Buffer.Skip
  rw [ReadBytes_eq_method]
  rcases Buffer.ReadBytes ⟨s⟩ n with ⟨o, b1⟩
  cases o <;> rfl

theorem readWith_eq_method (s : GoSlice) (k : Int) (expr : GoSlice → Outcome Nat) :
    readWith s k expr
      = ((Buffer.readWith ⟨s⟩ k expr).1, (Buffer.readWith ⟨s⟩ k expr).2.b) := by
  unfold readWith Buffer.readWith
  rw [ReadBytes_eq_method]
  rcases Buffer.ReadBytes ⟨s⟩ k with ⟨o, b1⟩
  cases o with
  | panic m => rfl
  | ret v =>
    cases hv : v.isNil
    · simp only [hv]
      cases expr v <;> rfl
    · simp only [hv]
      rfl

/-! ### Claims, continued -/

/-- C11: for every Buffer with remaining span `s`: with `len(s) ≥ 4`,
`ReadGMTUnixTime32` returns ok = true and a time whose epoch-second count is the
big-endian uint32 of `s[0..3]`, with zero nanoseconds, and leaves `s[4:]`; the
bytes `[0,0,0,1]` decode to epoch second 1; with `len(s) < 4` it returns the
zero time with ok = false and leaves the Buffer as it was. -/
theorem C11_ReadGMTUnixTime32 (b : Buffer) :
    (4 ≤ b.b.len → ∃ t, b.ReadGMTUnixTime32
        = (Outcome.ret (t, true), ⟨.mk (b.b.bytes.drop 4)⟩) ∧
      t.Unix = (beValue 4 b.b.bytes : Int) ∧ t.Nanosecond = 0) ∧
    (b.b.len < 4 → b.ReadGMTUnixTime32 = (Outcome.ret (Time.zero, false), b)) ∧
    (∃ t, Buffer.ReadGMTUnixTime32 ⟨.mk [0, 0, 0, 1]⟩ = (Outcome.ret (t, true), ⟨.mk []⟩) ∧
      t.Unix = 1) := by
  refine ⟨?_, Buffer.ReadGMTUnixTime32_short b, ?_⟩
  · intro h
    obtain ⟨x0, x1, x2, x3, r, rfl⟩ := b.of_four_le_len h
    refine ⟨_, Buffer.ReadGMTUnixTime32_mk x0 x1 x2 x3 r, ?_, ?_⟩
    · simp only [Time.Unix, GoSlice.bytes, beValue_four]
      omega
    · simp [Time.Nanosecond]
  · exact ⟨_, Buffer.ReadGMTUnixTime32_mk 0 0 0 1 [], by decide⟩

theorem C11_ReadGMTUnixTime32_witness :
    (∃ t, Buffer.ReadGMTUnixTime32 ⟨.mk [0, 0, 1, 2, 9]⟩
        = (Outcome.ret (t, true), ⟨.mk [9]⟩) ∧ t.Unix = 258 ∧ t.Nanosecond = 0) ∧
    Buffer.ReadGMTUnixTime32 ⟨.mk [0, 0, 1]⟩
      = (Outcome.ret (Time.zero, false), ⟨.mk [0, 0, 1]⟩) :=
  ⟨(C11_ReadGMTUnixTime32 ⟨.mk [0, 0, 1, 2, 9]⟩).1 (by decide),
   (C11_ReadGMTUnixTime32 ⟨.mk [0, 0, 1]⟩).2.1 (by decide)⟩

/-- C12: for every byte span `s` and every `n`, each of the functions
`ReadBytes`, `Skip`, `ReadUint8`, `ReadUint16`, `ReadUint24`, `ReadUint32` on the
slice variable returns what the like-named method returns on a Buffer over `s`,
and leaves in the slice variable the remaining span of that Buffer. -/
theorem C12_slice_functions_agree_with_methods (s : GoSlice) (n : Int) :
    ReadBytes s n = ((Buffer.ReadBytes ⟨s⟩ n).1, (Buffer.ReadBytes ⟨s⟩ n).2.b) ∧
    Skip s n = ((Buffer.Skip ⟨s⟩ n).1, (Buffer.Skip ⟨s⟩ n).2.b) ∧
    ReadUint8 s = ((Buffer.ReadUint8 ⟨s⟩).1, (Buffer.ReadUint8 ⟨s⟩).2.b) ∧
    ReadUint16 s = ((Buffer.ReadUint16 ⟨s⟩).1, (Buffer.ReadUint16 ⟨s⟩).2.b) ∧
    ReadUint24 s = ((Buffer.ReadUint24 ⟨s⟩).1, (Buffer.ReadUint24 ⟨s⟩).2.b) ∧
    ReadUint32 s = ((Buffer.ReadUint32 ⟨s⟩).1, (Buffer.ReadUint32 ⟨s⟩).2.b) :=
  ⟨ReadBytes_eq_method s n, Skip_eq_method s n, readWith_eq_method s 1 exprUint8,
   readWith_eq_method s 2 exprUint16, readWith_eq_method s 3 exprUint24,
   readWith_eq_method s 4 exprUint32⟩

/-! ### The remaining span only shrinks -/

theorem Buffer.ReadBytes_suffix (b : Buffer) (n : Int) :
    List.IsSuffix (b.ReadBytes n).2.b.bytes b.b.bytes := by
  by_cases h : n < 0 ∨ (b.b.len : Int) < n
  · rw [Buffer.ReadBytes_fail b n h]
  · obtain ⟨s⟩ := b
    cases s with
    | nil =>
      have hz : n = 0 := by
        simp only [GoSlice.len_nil] at h
        omega
      rw [Buffer.ReadBytes_nil n hz]
    | mk l =>
      simp only [GoSlice.len_mk] at h
      rw [Buffer.ReadBytes_mk l n (by omega) (by omega)]
      exact List.drop_suffix _ _

theorem Buffer.Skip_snd (b : Buffer) (n : Int) : (b.Skip n).2 = (b.ReadBytes n).2 := by
  unfold Buffer.Skip
  rcases b.ReadBytes n with ⟨o, b1⟩
  cases o <;> rfl

theorem Buffer.readWith_snd (b : Buffer) (k : Int) (expr : GoSlice → Outcome Nat) :
    (b.readWith k expr).2 = (b.ReadBytes k).2 := by
  unfold Buffer.readWith
  rcases b.ReadBytes k with ⟨o, b1⟩
  cases o with
  | panic m => rfl
  | ret v =>
    cases hv : v.isNil
    · simp only [hv]
      cases expr v <;> rfl
    · simp only [hv]
      rfl

theorem intResult_snd (r : Outcome (Nat × Bool) × Buffer) : (intResult r).2 = r.2 := by
  rcases r with ⟨o, b1⟩
  cases o <;> rfl

theorem Buffer.ReadInt_suffix (b : Buffer) (bitSize : Int) :
    List.IsSuffix (b.ReadInt bitSize).2.b.bytes b.b.bytes := by
  unfold Buffer.ReadInt
  split
  · rw [intResult_snd, Buffer.ReadUint8, Buffer.readWith_snd]
    exact b.ReadBytes_suffix 1
  · split
    · rw [intResult_snd, Buffer.ReadUint16, Buffer.readWith_snd]
      exact b.ReadBytes_suffix 2
    · split
      · rw [intResult_snd, Buffer.ReadUint24, Buffer.readWith_snd]
        exact b.ReadBytes_suffix 3
      · split
        · rw [intResult_snd, Buffer.ReadUint32, Buffer.readWith_snd]
          exact b.ReadBytes_suffix 4
        · exact List.suffix_refl _

theorem Buffer.ReadGMTUnixTime32_snd (b : Buffer) :
    b.ReadGMTUnixTime32.2 = (b.ReadBytes 4).2 := by
  rw [← Buffer.readWith_snd b 4 exprUint32]
  unfold Buffer.ReadGMTUnixTime32 Buffer.ReadUint32
  rcases b.readWith 4 exprUint32 with ⟨o, b1⟩
  cases o with
  | panic m => rfl
  | ret p =>
    obtain ⟨v, ok⟩ := p
    cases ok <;> rfl

theorem Buffer.ReadVector_suffix (b : Buffer) (bitSize : Int) :
    List.IsSuffix (b.ReadVector bitSize).2.b.bytes b.b.bytes := by
  have hi := b.ReadInt_suffix bitSize
  unfold Buffer.ReadVector
  rcases hr : b.ReadInt bitSize with ⟨o, b1⟩
  rw [hr] at hi
  cases o with
  | panic m => exact hi
  | ret p =>
    obtain ⟨n, ok⟩ := p
    cases ok with
    | false => exact hi
    | true =>
      have hb := b1.ReadBytes_suffix n
      simp only [Bool.not_true, Bool.false_eq_true, if_false]
      rcases hr2 : b1.ReadBytes n with ⟨o2, b2⟩
      rw [hr2] at hb
      cases o2 with
      | panic m => exact hb.trans hi
      | ret v =>
        dsimp only
        split <;> exact hb.trans hi

theorem Op.after_suffix (op : Op) (b : Buffer) :
    List.IsSuffix (op.after b).b.bytes b.b.bytes := by
  cases op with
  | ReadBytes n => exact b.ReadBytes_suffix n
  | Skip n =>
    simp only [Op.after, Buffer.Skip_snd]
    exact b.ReadBytes_suffix n
  | ReadUint8 =>
    simp only [Op.after, Buffer.ReadUint8, Buffer.readWith_snd]
    exact b.ReadBytes_suffix 1
  | ReadUint16 =>
    simp only [Op.after, Buffer.ReadUint16, Buffer.readWith_snd]
    exact b.ReadBytes_suffix 2
  | ReadUint24 =>
    simp only [Op.after, Buffer.ReadUint24, Buffer.readWith_snd]
    exact b.ReadBytes_suffix 3
  | ReadUint32 =>
    simp only [Op.after, Buffer.ReadUint32, Buffer.readWith_snd]
    exact b.ReadBytes_suffix 4
  | ReadInt bitSize => exact b.ReadInt_suffix bitSize
  | ReadGMTUnixTime32 =>
    simp only [Op.after, Buffer.ReadGMTUnixTime32_snd]
    exact b.ReadBytes_suffix 4
  | ReadVector bitSize => exact b.ReadVector_suffix bitSize

theorem Buffer.afterAll_suffix (ops : List Op) (b : Buffer) :
    List.IsSuffix (b.afterAll ops).b.bytes b.b.bytes := by
  induction ops generalizing b with
  | nil => exact List.suffix_refl _
  | cons op ops ih =>
    have h1 := ih (op.after b)
    exact h1.trans (op.after_suffix b)

theorem GoSlice.sliceAfter_suffix (s : GoSlice) (op : SliceOp) :
    List.IsSuffix (s.after op).bytes s.bytes := by
  cases op with
  | ReadBytes n =>
    simp only [GoSlice.after, ReadBytes_eq_method]
    exact Buffer.ReadBytes_suffix ⟨s⟩ n
  | Skip n =>
    simp only [GoSlice.after, Skip_eq_method, Buffer.Skip_snd]
    exact Buffer.ReadBytes_suffix ⟨s⟩ n
  | ReadUint8 =>
    simp only [GoSlice.after, ReadUint8, readWith_eq_method, Buffer.readWith_snd]
    exact Buffer.ReadBytes_suffix ⟨s⟩ 1
  | ReadUint16 =>
    simp only [GoSlice.after, ReadUint16, readWith_eq_method, Buffer.readWith_snd]
    exact Buffer.ReadBytes_suffix ⟨s⟩ 2
  | ReadUint24 =>
    simp only [GoSlice.after, ReadUint24, readWith_eq_method, Buffer.readWith_snd]
    exact Buffer.ReadBytes_suffix ⟨s⟩ 3
  | ReadUint32 =>
    simp only [GoSlice.after, ReadUint32, readWith_eq_method, Buffer.readWith_snd]
    exact Buffer.ReadBytes_suffix ⟨s⟩ 4

theorem GoSlice.sliceAfterAll_suffix (ops : List SliceOp) (s : GoSlice) :
    List.IsSuffix (s.afterAll ops).bytes s.bytes := by
  induction ops generalizing s with
  | nil => exact List.suffix_refl _
  | cons op ops ih =>
    have h1 := ih (s.after op)
    exact h1.trans (s.sliceAfter_suffix op)

/-- A suffix of `l` is `l[j:]` for some `j ≤ len(l)`. -/
theorem suffix_as_drop (a l : List Byte) (h : List.IsSuffix a l) :
    ∃ j, j ≤ l.length ∧ a = l.drop j :=
  ⟨l.length - a.length, Nat.sub_le _ _, List.suffix_iff_eq_drop.mp h⟩

/-- C13: cursor monotonicity. Every call of a read method of `Buffer` (whether
it returns or panics) leaves a remaining span `s[j:]` of the span `s` it found,
`0 ≤ j ≤ len(s)`; so does a sequence of such calls, and the length of the
remaining span does not increase. The same holds for the functions on a
caller-owned slice. -/
theorem C13_cursor_monotone :
    (∀ (op : Op) (b : Buffer),
      ∃ j, j ≤ b.b.len ∧ (op.after b).b.bytes = b.b.bytes.drop j) ∧
    (∀ (ops : List Op) (b : Buffer),
      (∃ j, j ≤ b.b.len ∧ (b.afterAll ops).b.bytes = b.b.bytes.drop j) ∧
        (b.afterAll ops).b.len ≤ b.b.len) ∧
    (∀ (op : SliceOp) (s : GoSlice),
      ∃ j, j ≤ s.len ∧ (s.after op).bytes = s.bytes.drop j) ∧
    (∀ (ops : List SliceOp) (s : GoSlice),
      (∃ j, j ≤ s.len ∧ (s.afterAll ops).bytes = s.bytes.drop j) ∧
        (s.afterAll ops).len ≤ s.len) :=
  ⟨fun op b => suffix_as_drop _ _ (op.after_suffix b),
   fun ops b => ⟨suffix_as_drop _ _ (b.afterAll_suffix ops),
     (b.afterAll_suffix ops).length_le⟩,
   fun op s => suffix_as_drop _ _ (s.sliceAfter_suffix op),
   fun ops s => ⟨suffix_as_drop _ _ (s.sliceAfterAll_suffix ops),
     (s.sliceAfterAll_suffix ops).length_le⟩⟩


/-! ### The readers on an `io.Reader` -/

theorem ReadReaderBytes_neg {σ : Type} (rt : Runtime) (R : Reader σ) (rd : σ) (n : Int)
    (h : n < 0) :
    ReadReaderBytes rt R rd n
      = (.ret (.mk [], some (.other "number is less than zero")), rd) := by
  simp [ReadReaderBytes, h]

theorem store_length (p w : List Byte) : (store p w).length = p.length := by
  simp only [store, List.length_append, List.length_take, List.length_drop]
  omega

/-- When `make` returns, it returns `n` zero bytes. -/
theorem makeBytes_ret (rt : Runtime) (n : Int) (b : GoSlice)
    (h : makeBytes rt n = .ret b) :
    0 ≤ n ∧ n ≤ (rt.maxAlloc : Int) ∧ n ≤ (rt.avail : Int) ∧
      b = .mk (List.replicate n.toNat 0) := by
  unfold makeBytes at h
  by_cases h1 : n < 0 ∨ (rt.maxAlloc : Int) < n
  · simp [h1] at h
  · by_cases h2 : n ≤ (rt.avail : Int)
    · simp only [h1, h2, if_true, if_false, Run.ret.injEq] at h
      exact ⟨by omega, by omega, h2, h.symm⟩
    · simp [h1, h2] at h

/-- When `make` panics, the length is negative or over the limit of the runtime. -/
theorem makeBytes_panic (rt : Runtime) (n : Int) (m : String)
    (h : makeBytes rt n = .panic m) :
    m = "runtime error: makeslice: len out of range" ∧
      (n < 0 ∨ (rt.maxAlloc : Int) < n) := by
  unfold makeBytes at h
  by_cases h1 : n < 0 ∨ (rt.maxAlloc : Int) < n
  · simp only [h1, if_true, Run.panic.injEq] at h
    exact ⟨h.symm, h1⟩
  · by_cases h2 : n ≤ (rt.avail : Int)
    · simp [h1, h2] at h
    · simp [h1, h2] at h

/-- The three ways `ReadReaderBytes(in, k)` ends for `k ≥ 0`, by what its
`make([]byte, k)` does: one `Read` into the `k` zero bytes, or the panic, or the
fatal error of `make`, before any `Read`. -/
theorem ReadReaderBytes_make_ret {σ : Type} (rt : Runtime) (R : Reader σ) (rd : σ)
    (k : Nat) (b : GoSlice) (h : makeBytes rt (k : Int) = .ret b) :
    ReadReaderBytes rt R rd (k : Int)
      = (.ret (.mk (store (List.replicate k 0) (R.Read rd k).written), (R.Read rd k).err),
          (R.Read rd k).next) := by
  have hb := (makeBytes_ret rt k b h).2.2.2
  simp only [Int.toNat_ofNat] at hb
  subst hb
  have h1 : ¬ ((k : Int) < 0) := by omega
  simp [ReadReaderBytes, h, h1, GoSlice.len, GoSlice.bytes]

theorem ReadReaderBytes_make_panic {σ : Type} (rt : Runtime) (R : Reader σ) (rd : σ)
    (k : Nat) (m : String) (h : makeBytes rt (k : Int) = .panic m) :
    ReadReaderBytes rt R rd (k : Int) = (.panic m, rd) := by
  have h1 : ¬ ((k : Int) < 0) := by omega
  simp [ReadReaderBytes, h, h1]

theorem ReadReaderBytes_make_fatal {σ : Type} (rt : Runtime) (R : Reader σ) (rd : σ)
    (k : Nat) (m : String) (h : makeBytes rt (k : Int) = .fatal m) :
    ReadReaderBytes rt R rd (k : Int) = (.fatal m, rd) := by
  have h1 : ¬ ((k : Int) < 0) := by omega
  simp [ReadReaderBytes, h, h1]

/-- The error check of `ReadReaderUint16`, `ReadReaderUint24`, `ReadReaderUint32`:
an error of the `Read` is returned as it is, with the value 0. -/
theorem readerWith_error {σ : Type} (rt : Runtime) (R : Reader σ) (rd : σ) (k : Nat)
    (b : GoSlice) (hb : makeBytes rt (k : Int) = .ret b)
    (expr : GoSlice → Outcome Nat) (e : GoError) (he : (R.Read rd k).err = some e) :
    readerWith rt R rd (k : Int) expr = (.ret (0, some e), (R.Read rd k).next) := by
  simp [readerWith, ReadReaderBytes_make_ret rt R rd k b hb, he]

/-- C14: a source over the bytes 1 2 3 4 that delivers one byte per `Read`, with
a nil error (on a runtime that can provide 4096 bytes): `ReadReaderBytes(in, 4)`
makes its one `Read` and returns `[1 0 0 0]` with a nil error, and
`ReadReaderUint32` returns `1<<24` with a nil error, not
`1<<24 | 2<<16 | 3<<8 | 4`; three bytes stay in the source. -/
theorem C14_one_byte_per_read_not_accumulated :
    ReadReaderBytes (runtime64 4096) (chunkReader 1) [1, 2, 3, 4] 4
      = (Run.ret (GoSlice.mk [1, 0, 0, 0], none), [2, 3, 4]) ∧
    ReadReaderUint32 (runtime64 4096) (chunkReader 1) [1, 2, 3, 4]
      = (Run.ret (16777216, none), [2, 3, 4]) ∧
    (16777216 : Nat) ≠ 1 * 2 ^ 24 + 2 * 2 ^ 16 + 3 * 2 ^ 8 + 4 := by
  decide

/-- C15: a source that holds fewer bytes than the width needs and delivers them
with a nil error (`io.EOF` comes with the next `Read`), on a runtime that can
provide 4096 bytes: `ReadReaderUint32` on the two bytes 1 2 returns
`1<<24 | 2<<16` with a nil error, and likewise `ReadReaderUint16` on one byte
and `ReadReaderUint24` on two; none returns `io.EOF` with the value 0. -/
theorem C15_short_source_decoded_without_error :
    ReadReaderUint32 (runtime64 4096) (chunkReader 4) [1, 2]
      = (Run.ret (16908288, none), []) ∧
    ReadReaderUint16 (runtime64 4096) (chunkReader 4) [1] = (Run.ret (256, none), []) ∧
    ReadReaderUint24 (runtime64 4096) (chunkReader 4) [1, 2]
      = (Run.ret (66048, none), []) ∧
    ((chunkReader 4).Read [] 4).err = some GoError.EOF := by
  decide

/-- C16: a source that stores the byte 7 and reports `io.EOF` in the same
`Read` (on a runtime that can provide 4096 bytes): `ReadReaderUint8` returns
the value 7 with `io.EOF`, not 0, while `ReadReaderUint16` on the same kind of
source returns 0 with `io.EOF`. -/
theorem C16_ReadReaderUint8_value_with_error :
    ReadReaderUint8 (runtime64 4096) dataErrReader [7]
      = (Run.ret (7, some GoError.EOF), []) ∧
    ReadReaderUint16 (runtime64 4096) dataErrReader [7, 8]
      = (Run.ret (0, some GoError.EOF), []) := by
  decide

/-- C17: on every runtime, for every source and every `n < 0`,
`ReadReaderBytes(in, n)` returns the empty non-nil slice and the error "number
is less than zero", which is not `io.EOF`, and `SkipReader(in, n)` returns that
error; neither calls `Read`: the source is left in the state it was in,
whatever its `Read` does. -/
theorem C17_negative_length_rejected {σ : Type} (rt : Runtime) (R : Reader σ) (rd : σ)
    (n : Int) (h : n < 0) :
    ReadReaderBytes rt R rd n
      = (Run.ret (GoSlice.mk [], some (GoError.other "number is less than zero")), rd) ∧
    SkipReader rt R rd n
      = (Run.ret (some (GoError.other "number is less than zero")), rd) ∧
    GoError.other "number is less than zero" ≠ GoError.EOF := by
  refine ⟨ReadReaderBytes_neg rt R rd n h, ?_, by simp⟩
  simp [SkipReader, ReadReaderBytes_neg rt R rd n h]

theorem C17_negative_length_rejected_witness :
    ReadReaderBytes (runtime64 4096) countReader 0 (-1)
      = (Run.ret (GoSlice.mk [], some (GoError.other "number is less than zero")), 0) ∧
    SkipReader (runtime64 4096) countReader 0 (-1)
      = (Run.ret (some (GoError.other "number is less than zero")), 0) ∧
    GoError.other "number is less than zero" ≠ GoError.EOF :=
  C17_negative_length_rejected (runtime64 4096) countReader 0 (-1) (by decide)

/-- C18: for every bitSize w in {8,16,24,32} and every Buffer whose remaining
span has fewer than w/8 bytes, `ReadVector(w)` returns the empty non-nil slice
with ok = false and leaves the Buffer exactly as it was. -/
theorem C18_ReadVector_length_short (b : Buffer) :
    (b.b.len < 1 → b.ReadVector 8 = (Outcome.ret (GoSlice.mk [], false), b)) ∧
    (b.b.len < 2 → b.ReadVector 16 = (Outcome.ret (GoSlice.mk [], false), b)) ∧
    (b.b.len < 3 → b.ReadVector 24 = (Outcome.ret (GoSlice.mk [], false), b)) ∧
    (b.b.len < 4 → b.ReadVector 32 = (Outcome.ret (GoSlice.mk [], false), b)) := by
  refine ⟨?_, ?_, ?_, ?_⟩
  · intro h
    apply Buffer.ReadVector_length_short b 8 0 b
    have e : b.ReadUint8 = (.ret (0, false), b) := Buffer.readWith_short b 1 exprUint8 h
    rw [Buffer.ReadInt_8, e]
    exact intResult_ret 0 false b (by omega)
  · intro h
    apply Buffer.ReadVector_length_short b 16 0 b
    have e : b.ReadUint16 = (.ret (0, false), b) := Buffer.readWith_short b 2 exprUint16 h
    rw [Buffer.ReadInt_16, e]
    exact intResult_ret 0 false b (by omega)
  · intro h
    apply Buffer.ReadVector_length_short b 24 0 b
    have e : b.ReadUint24 = (.ret (0, false), b) := Buffer.readWith_short b 3 exprUint24 h
    rw [Buffer.ReadInt_24, e]
    exact intResult_ret 0 false b (by omega)
  · intro h
    apply Buffer.ReadVector_length_short b 32 0 b
    have e : b.ReadUint32 = (.ret (0, false), b) := Buffer.readWith_short b 4 exprUint32 h
    rw [Buffer.ReadInt_32, e]
    exact intResult_ret 0 false b (by omega)

theorem C18_ReadVector_length_short_witness :
    Buffer.ReadVector ⟨.nil⟩ 8 = (Outcome.ret (GoSlice.mk [], false), ⟨.nil⟩) ∧
    Buffer.ReadVector ⟨.mk [5]⟩ 16 = (Outcome.ret (GoSlice.mk [], false), ⟨.mk [5]⟩) ∧
    Buffer.ReadVector ⟨.mk [5, 6]⟩ 24 = (Outcome.ret (GoSlice.mk [], false), ⟨.mk [5, 6]⟩) ∧
    Buffer.ReadVector ⟨.mk [5, 6, 7]⟩ 32
      = (Outcome.ret (GoSlice.mk [], false), ⟨.mk [5, 6, 7]⟩) :=
  ⟨(C18_ReadVector_length_short ⟨.nil⟩).1 (by decide),
   (C18_ReadVector_length_short ⟨.mk [5]⟩).2.1 (by decide),
   (C18_ReadVector_length_short ⟨.mk [5, 6]⟩).2.2.1 (by decide),
   (C18_ReadVector_length_short ⟨.mk [5, 6, 7]⟩).2.2.2 (by decide)⟩

/-! ### Which calls return -/

theorem Buffer.ReadBytes_len (b : Buffer) (n : Int) :
    ∃ v b1, b.ReadBytes n = (.ret v, b1) ∧ (v.isNil = false → (v.len : Int) = n) := by
  by_cases h : n < 0 ∨ (b.b.len : Int) < n
  · exact ⟨_, _, Buffer.ReadBytes_fail b n h, by simp [GoSlice.isNil]⟩
  · obtain ⟨s⟩ := b
    cases s with
    | nil =>
      have hz : n = 0 := by
        simp only [GoSlice.len_nil] at h
        omega
      exact ⟨_, _, Buffer.ReadBytes_nil n hz, by simp [GoSlice.isNil]⟩
    | mk l =>
      simp only [GoSlice.len_mk] at h
      refine ⟨_, _, Buffer.ReadBytes_mk l n (by omega) (by omega), ?_⟩
      intro _
      simp only [GoSlice.len_mk, List.length_take]
      omega

theorem Buffer.Skip_returns (b : Buffer) (n : Int) : (b.Skip n).1.returns = true := by
  obtain ⟨v, b1, h⟩ := b.ReadBytes_returns n
  simp [Buffer.Skip, h, Outcome.returns]

theorem returns_of_eq {α β : Type} (r : Outcome α × β) (v : α) (s : β)
    (h : r = (.ret v, s)) : r.1.returns = true := by
  subst h
  rfl

theorem Buffer.ReadGMTUnixTime32_returns (b : Buffer) :
    b.ReadGMTUnixTime32.1.returns = true := by
  obtain ⟨x, ok, b1, h, _⟩ := b.ReadUint32_returns
  cases ok <;> simp [Buffer.ReadGMTUnixTime32, h, Outcome.returns]

/-- A panic of `ReadInt` is the one of its default arm. -/
theorem Buffer.ReadInt_panic (b : Buffer) (bitSize : Int) (m : String) (b1 : Buffer)
    (h : b.ReadInt bitSize = (.panic m, b1)) :
    m = "invalid bitSize value" ∧
      bitSize ≠ 8 ∧ bitSize ≠ 16 ∧ bitSize ≠ 24 ∧ bitSize ≠ 32 := by
  by_cases hv : bitSize = 8 ∨ bitSize = 16 ∨ bitSize = 24 ∨ bitSize = 32
  · have hr : (b.ReadInt bitSize).1.returns = true := by
      rcases hv with rfl | rfl | rfl | rfl
      · rw [Buffer.ReadInt_8]
        obtain ⟨x, ok, b2, hx, _⟩ := b.ReadUint8_returns
        exact intResult_returns _ ⟨x, ok, b2, hx⟩
      · rw [Buffer.ReadInt_16]
        obtain ⟨x, ok, b2, hx, _⟩ := b.ReadUint16_returns
        exact intResult_returns _ ⟨x, ok, b2, hx⟩
      · rw [Buffer.ReadInt_24]
        obtain ⟨x, ok, b2, hx, _⟩ := b.ReadUint24_returns
        exact intResult_returns _ ⟨x, ok, b2, hx⟩
      · rw [Buffer.ReadInt_32]
        obtain ⟨x, ok, b2, hx, _⟩ := b.ReadUint32_returns
        exact intResult_returns _ ⟨x, ok, b2, hx⟩
    rw [h] at hr
    simp [Outcome.returns] at hr
  · have hn : bitSize ≠ 8 ∧ bitSize ≠ 16 ∧ bitSize ≠ 24 ∧ bitSize ≠ 32 := by omega
    rw [Buffer.ReadInt_invalid b bitSize hn] at h
    simp only [Prod.mk.injEq, Outcome.panic.injEq] at h
    exact ⟨h.1.symm, hn⟩

/-- A panic of `ReadVector` is the one of `ReadInt`. -/
theorem Buffer.ReadVector_panic (b : Buffer) (bitSize : Int) (m : String) (b1 : Buffer)
    (h : b.ReadVector bitSize = (.panic m, b1)) :
    m = "invalid bitSize value" ∧
      bitSize ≠ 8 ∧ bitSize ≠ 16 ∧ bitSize ≠ 24 ∧ bitSize ≠ 32 := by
  by_cases hv : bitSize ≠ 8 ∧ bitSize ≠ 16 ∧ bitSize ≠ 24 ∧ bitSize ≠ 32
  · have hi := Buffer.ReadInt_invalid b bitSize hv
    simp only [Buffer.ReadVector, hi, Prod.mk.injEq, Outcome.panic.injEq] at h
    exact ⟨h.1.symm, hv⟩
  · have hr : (b.ReadInt bitSize).1.returns = true := by
      rcases hi : b.ReadInt bitSize with ⟨o, b2⟩
      cases o with
      | ret p => rfl
      | panic m2 => exact absurd (Buffer.ReadInt_panic b bitSize m2 b2 hi).2 hv
    have hr2 := Buffer.ReadVector_returns b bitSize hr
    rw [h] at hr2
    simp [Outcome.returns] at hr2

theorem exprUint8_returns (l : List Byte) (h : 1 ≤ l.length) :
    ∃ x, exprUint8 (.mk l) = .ret x := by
  match l, h with
  | x0 :: r, _ => exact ⟨_, exprUint8_cons x0 r⟩

theorem exprUint16_returns (l : List Byte) (h : 2 ≤ l.length) :
    ∃ x, exprUint16 (.mk l) = .ret x := by
  match l, h with
  | x0 :: x1 :: r, _ => exact ⟨_, exprUint16_cons x0 x1 r⟩
  | [_], h => simp at h

theorem exprUint24_returns (l : List Byte) (h : 3 ≤ l.length) :
    ∃ x, exprUint24 (.mk l) = .ret x := by
  match l, h with
  | x0 :: x1 :: x2 :: r, _ => exact ⟨_, exprUint24_cons x0 x1 x2 r⟩
  | [_, _], h => simp at h
  | [_], h => simp at h

theorem exprUint32_returns (l : List Byte) (h : 4 ≤ l.length) :
    ∃ x, exprUint32 (.mk l) = .ret x := by
  match l, h with
  | x0 :: x1 :: x2 :: x3 :: r, _ => exact ⟨_, exprUint32_cons x0 x1 x2 x3 r⟩
  | [_, _, _], h => simp at h
  | [_, _], h => simp at h
  | [_], h => simp at h

/-- With the buffer of `make` in hand, `ReadReaderUint8` returns: `v[0]` is in
range. -/
theorem ReadReaderUint8_returns {σ : Type} (rt : Runtime) (R : Reader σ) (rd : σ)
    (b : GoSlice) (hb : makeBytes rt 1 = .ret b) :
    (ReadReaderUint8 rt R rd).1.returns = true := by
  have h1 : ReadReaderBytes rt R rd 1 = _ := ReadReaderBytes_make_ret rt R rd 1 b hb
  obtain ⟨x, hx⟩ := exprUint8_returns (store (List.replicate 1 0) (R.Read rd 1).written)
    (by rw [store_length]; simp)
  simp only [ReadReaderUint8, h1, hx, Run.returns]

/-- A panic of `ReadReaderUint8` is the panic of `make`, not an index out of
range. -/
theorem ReadReaderUint8_panic {σ : Type} (rt : Runtime) (R : Reader σ) (rd : σ)
    (m : String) (rd1 : σ) (h : ReadReaderUint8 rt R rd = (.panic m, rd1)) :
    makeBytes rt 1 = .panic m := by
  cases hm : makeBytes rt 1 with
  | ret b =>
    have hr := ReadReaderUint8_returns rt R rd b hm
    rw [h] at hr
    simp [Run.returns] at hr
  | panic m2 =>
    have h1 : ReadReaderBytes rt R rd 1 = _ := ReadReaderBytes_make_panic rt R rd 1 m2 hm
    simp only [ReadReaderUint8, h1, Prod.mk.injEq, Run.panic.injEq] at h
    rw [h.1]
  | fatal m2 =>
    have h1 : ReadReaderBytes rt R rd 1 = _ := ReadReaderBytes_make_fatal rt R rd 1 m2 hm
    simp [ReadReaderUint8, h1] at h

theorem readerWith_returns {σ : Type} (rt : Runtime) (R : Reader σ) (rd : σ) (k : Nat)
    (b : GoSlice) (hb : makeBytes rt (k : Int) = .ret b) (expr : GoSlice → Outcome Nat)
    (he : ∀ l : List Byte, k ≤ l.length → ∃ x, expr (.mk l) = .ret x) :
    (readerWith rt R rd (k : Int) expr).1.returns = true := by
  obtain ⟨x, hx⟩ := he (store (List.replicate k 0) (R.Read rd k).written)
    (by rw [store_length]; simp)
  cases herr : (R.Read rd k).err with
  | none =>
    simp [readerWith, ReadReaderBytes_make_ret rt R rd k b hb, herr, hx, Run.returns]
  | some e =>
    simp [readerWith, ReadReaderBytes_make_ret rt R rd k b hb, herr, Run.returns]

theorem readerWith_panic {σ : Type} (rt : Runtime) (R : Reader σ) (rd : σ) (k : Nat)
    (expr : GoSlice → Outcome Nat)
    (he : ∀ l : List Byte, k ≤ l.length → ∃ x, expr (.mk l) = .ret x)
    (m : String) (rd1 : σ) (h : readerWith rt R rd (k : Int) expr = (.panic m, rd1)) :
    makeBytes rt (k : Int) = .panic m := by
  cases hm : makeBytes rt (k : Int) with
  | ret b =>
    have hr := readerWith_returns rt R rd k b hm expr he
    rw [h] at hr
    simp [Run.returns] at hr
  | panic m2 =>
    simp only [readerWith, ReadReaderBytes_make_panic rt R rd k m2 hm, Prod.mk.injEq,
      Run.panic.injEq] at h
    rw [h.1]
  | fatal m2 =>
    simp [readerWith, ReadReaderBytes_make_fatal rt R rd k m2 hm] at h

/-- A panic of `ReadReaderBytes` is the panic of `make` for a length over the
limit of the runtime. -/
theorem ReadReaderBytes_panic {σ : Type} (rt : Runtime) (R : Reader σ) (rd : σ) (k : Int)
    (m : String) (rd1 : σ) (h : ReadReaderBytes rt R rd k = (.panic m, rd1)) :
    makeBytes rt k = .panic m ∧ (rt.maxAlloc : Int) < k := by
  by_cases hneg : k < 0
  · rw [ReadReaderBytes_neg rt R rd k hneg] at h
    simp at h
  · lift k to Nat using (by omega)
    cases hm : makeBytes rt (k : Int) with
    | ret b =>
      rw [ReadReaderBytes_make_ret rt R rd k b hm] at h
      simp at h
    | panic m2 =>
      rw [ReadReaderBytes_make_panic rt R rd k m2 hm] at h
      simp only [Prod.mk.injEq, Run.panic.injEq] at h
      have hp := (makeBytes_panic rt k m2 hm).2
      exact ⟨by rw [h.1], by omega⟩
    | fatal m2 =>
      rw [ReadReaderBytes_make_fatal rt R rd k m2 hm] at h
      simp at h

/-- A slice that `ReadReaderBytes(in, k)` returns for `k ≥ 0` has length `k`. -/
theorem ReadReaderBytes_len {σ : Type} (rt : Runtime) (R : Reader σ) (rd : σ) (k : Int)
    (h0 : 0 ≤ k) (v : GoSlice) (err : Option GoError) (rd1 : σ)
    (h : ReadReaderBytes rt R rd k = (.ret (v, err), rd1)) : (v.len : Int) = k := by
  lift k to Nat using h0
  cases hm : makeBytes rt (k : Int) with
  | ret b =>
    rw [ReadReaderBytes_make_ret rt R rd k b hm] at h
    simp only [Prod.mk.injEq, Run.ret.injEq] at h
    rw [← h.1.1]
    simp only [GoSlice.len_mk, store_length, List.length_replicate]
  | panic m2 =>
    rw [ReadReaderBytes_make_panic rt R rd k m2 hm] at h
    simp at h
  | fatal m2 =>
    rw [ReadReaderBytes_make_fatal rt R rd k m2 hm] at h
    simp at h

theorem SkipReader_panic {σ : Type} (rt : Runtime) (R : Reader σ) (rd : σ) (k : Int)
    (m : String) (rd1 : σ) (h : SkipReader rt R rd k = (.panic m, rd1)) :
    makeBytes rt k = .panic m := by
  unfold SkipReader at h
  rcases hr : ReadReaderBytes rt R rd k with ⟨o, rd2⟩
  rw [hr] at h
  cases o with
  | ret p => simp at h
  | fatal m2 => simp at h
  | panic m2 =>
    simp only [Prod.mk.injEq, Run.panic.injEq] at h
    rw [← h.1]
    exact (ReadReaderBytes_panic rt R rd k m2 rd2 hr).1

/-- C19 as stated fails: `ReadReaderBytes(in, k)` with `k = 2^63 - 1` (the
largest `int`) passes the `n < 0` guard and panics in `make([]byte, n)`, the
length being over the limit of the runtime (of every 64-bit runtime, whatever
memory it has); it returns no slice of length `k`, and this panic is not the
one of `ReadInt`. -/
theorem C19_ReadReaderBytes_huge_length_panics :
    ReadReaderBytes (runtime64 4096) (chunkReader 1) [1] (2 ^ 63 - 1)
      = (Run.panic "runtime error: makeslice: len out of range", [1]) ∧
    ¬ ∃ v err rd1, ReadReaderBytes (runtime64 4096) (chunkReader 1) [1] (2 ^ 63 - 1)
        = (Run.ret (v, err), rd1) ∧ (v.len : Int) = 2 ^ 63 - 1 := by
  have h : ReadReaderBytes (runtime64 4096) (chunkReader 1) [1] (2 ^ 63 - 1)
      = (Run.panic "runtime error: makeslice: len out of range", [1]) := by decide
  refine ⟨h, ?_⟩
  rintro ⟨v, err, rd1, hv, _⟩
  rw [h] at hv
  simp at hv

/-- C19, amended: index safety. For every Buffer, every byte span and every
source, no slice or index expression of the package is out of range.
`ReadBytes`, `Skip`, the fixed-width readers (methods and functions on a
slice) and `ReadGMTUnixTime32` return on every input; a non-nil result of
`ReadBytes(k)` has length exactly `k`. `ReadReaderBytes(in, k)` for `k ≥ 0`
returns a slice of length exactly `k`, whatever the source delivered, whenever
its `make([]byte, k)` returns, and every slice it returns has length `k`; the
`ReadReaderUint` functions return whenever their `make` returns. The panics
that can be reached are the invalid-bitSize panic of `ReadInt` (also through
`ReadVector`) and the panic of `make` in `ReadReaderBytes` for a length over the
limit of the runtime (also through `SkipReader` and the `ReadReaderUint`
functions). -/
theorem C19_index_safety :
    (∀ (b : Buffer) (n : Int), ∃ v b1, b.ReadBytes n = (Outcome.ret v, b1) ∧
      (v.isNil = false → (v.len : Int) = n)) ∧
    (∀ (b : Buffer) (n : Int), (b.Skip n).1.returns = true) ∧
    (∀ b : Buffer, b.ReadUint8.1.returns = true ∧ b.ReadUint16.1.returns = true ∧
      b.ReadUint24.1.returns = true ∧ b.ReadUint32.1.returns = true ∧
      b.ReadGMTUnixTime32.1.returns = true) ∧
    (∀ (b : Buffer) (bitSize : Int) (m : String) (b1 : Buffer),
      b.ReadInt bitSize = (Outcome.panic m, b1) ∨
        b.ReadVector bitSize = (Outcome.panic m, b1) →
      m = "invalid bitSize value" ∧
        bitSize ≠ 8 ∧ bitSize ≠ 16 ∧ bitSize ≠ 24 ∧ bitSize ≠ 32) ∧
    (∀ (s : GoSlice) (n : Int), (ReadBytes s n).1.returns = true ∧
      (Skip s n).1.returns = true ∧ (ReadUint8 s).1.returns = true ∧
      (ReadUint16 s).1.returns = true ∧ (ReadUint24 s).1.returns = true ∧
      (ReadUint32 s).1.returns = true) ∧
    (∀ (σ : Type) (rt : Runtime) (R : Reader σ) (rd : σ) (k : Int) (b : GoSlice),
      0 ≤ k → makeBytes rt k = Run.ret b →
      ∃ v err rd1, ReadReaderBytes rt R rd k = (Run.ret (v, err), rd1) ∧
        (v.len : Int) = k) ∧
    (∀ (σ : Type) (rt : Runtime) (R : Reader σ) (rd : σ) (k : Int) (v : GoSlice)
        (err : Option GoError) (rd1 : σ),
      0 ≤ k → ReadReaderBytes rt R rd k = (Run.ret (v, err), rd1) → (v.len : Int) = k) ∧
    (∀ (σ : Type) (rt : Runtime) (R : Reader σ) (rd : σ) (b : GoSlice),
      (makeBytes rt 1 = Run.ret b → (ReadReaderUint8 rt R rd).1.returns = true) ∧
      (makeBytes rt 2 = Run.ret b → (ReadReaderUint16 rt R rd).1.returns = true) ∧
      (makeBytes rt 3 = Run.ret b → (ReadReaderUint24 rt R rd).1.returns = true) ∧
      (makeBytes rt 4 = Run.ret b → (ReadReaderUint32 rt R rd).1.returns = true)) ∧
    (∀ (σ : Type) (rt : Runtime) (R : Reader σ) (rd : σ) (k : Int) (m : String) (rd1 : σ),
      ReadReaderBytes rt R rd k = (Run.panic m, rd1) ∨
        SkipReader rt R rd k = (Run.panic m, rd1) →
      makeBytes rt k = Run.panic m ∧
        m = "runtime error: makeslice: len out of range" ∧ (rt.maxAlloc : Int) < k) ∧
    (∀ (σ : Type) (rt : Runtime) (R : Reader σ) (rd : σ) (m : String) (rd1 : σ),
      (ReadReaderUint8 rt R rd = (Run.panic m, rd1) → makeBytes rt 1 = Run.panic m) ∧
      (ReadReaderUint16 rt R rd = (Run.panic m, rd1) → makeBytes rt 2 = Run.panic m) ∧
      (ReadReaderUint24 rt R rd = (Run.panic m, rd1) → makeBytes rt 3 = Run.panic m) ∧
      (ReadReaderUint32 rt R rd = (Run.panic m, rd1) → makeBytes rt 4 = Run.panic m)) := by
  have r8 : ∀ b : Buffer, b.ReadUint8.1.returns = true := fun b => by
    obtain ⟨x, ok, b1, h, _⟩ := b.ReadUint8_returns
    exact returns_of_eq _ _ _ h
  have r16 : ∀ b : Buffer, b.ReadUint16.1.returns = true := fun b => by
    obtain ⟨x, ok, b1, h, _⟩ := b.ReadUint16_returns
    exact returns_of_eq _ _ _ h
  have r24 : ∀ b : Buffer, b.ReadUint24.1.returns = true := fun b => by
    obtain ⟨x, ok, b1, h, _⟩ := b.ReadUint24_returns
    exact returns_of_eq _ _ _ h
  have r32 : ∀ b : Buffer, b.ReadUint32.1.returns = true := fun b => by
    obtain ⟨x, ok, b1, h, _⟩ := b.ReadUint32_returns
    exact returns_of_eq _ _ _ h
  refine ⟨Buffer.ReadBytes_len, Buffer.Skip_returns,
    fun b => ⟨r8 b, r16 b, r24 b, r32 b, b.ReadGMTUnixTime32_returns⟩, ?_, ?_, ?_, ?_, ?_,
    ?_, ?_⟩
  · intro b bitSize m b1 h
    rcases h with h | h
    · exact Buffer.ReadInt_panic b bitSize m b1 h
    · exact Buffer.ReadVector_panic b bitSize m b1 h
  · intro s n
    refine ⟨?_, ?_, ?_, ?_, ?_, ?_⟩
    · rw [ReadBytes_eq_method]
      obtain ⟨v, b1, h⟩ := Buffer.ReadBytes_returns ⟨s⟩ n
      rw [h]
      rfl
    · rw [Skip_eq_method]
      exact Buffer.Skip_returns ⟨s⟩ n
    · rw [ReadUint8, readWith_eq_method]
      exact r8 ⟨s⟩
    · rw [ReadUint16, readWith_eq_method]
      exact r16 ⟨s⟩
    · rw [ReadUint24, readWith_eq_method]
      exact r24 ⟨s⟩
    · rw [ReadUint32, readWith_eq_method]
      exact r32 ⟨s⟩
  · intro σ rt R rd k b h0 hb
    lift k to Nat using h0
    refine ⟨_, _, _, ReadReaderBytes_make_ret rt R rd k b hb, ?_⟩
    simp only [GoSlice.len_mk, store_length, List.length_replicate]
  · intro σ rt R rd k v err rd1 h0 h
    exact ReadReaderBytes_len rt R rd k h0 v err rd1 h
  · intro σ rt R rd b
    exact ⟨ReadReaderUint8_returns rt R rd b,
      fun hb => readerWith_returns rt R rd 2 b hb exprUint16 exprUint16_returns,
      fun hb => readerWith_returns rt R rd 3 b hb exprUint24 exprUint24_returns,
      fun hb => readerWith_returns rt R rd 4 b hb exprUint32 exprUint32_returns⟩
  · intro σ rt R rd k m rd1 h
    have hm : makeBytes rt k = Run.panic m ∧ (rt.maxAlloc : Int) < k := by
      rcases h with h | h
      · exact ReadReaderBytes_panic rt R rd k m rd1 h
      · have hs := SkipReader_panic rt R rd k m rd1 h
        have hp := (makeBytes_panic rt k m hs).2
        rcases hp with hp | hp
        · have hn := ReadReaderBytes_neg rt R rd k hp
          simp [SkipReader, hn] at h
        · exact ⟨hs, hp⟩
    exact ⟨hm.1, (makeBytes_panic rt k m hm.1).1, hm.2⟩
  · intro σ rt R rd m rd1
    exact ⟨ReadReaderUint8_panic rt R rd m rd1,
      readerWith_panic rt R rd 2 exprUint16 exprUint16_returns m rd1,
      readerWith_panic rt R rd 3 exprUint24 exprUint24_returns m rd1,
      readerWith_panic rt R rd 4 exprUint32 exprUint32_returns m rd1⟩

theorem C19_index_safety_witness :
    (("invalid bitSize value" = "invalid bitSize value") ∧
      (12 : Int) ≠ 8 ∧ (12 : Int) ≠ 16 ∧ (12 : Int) ≠ 24 ∧ (12 : Int) ≠ 32) ∧
    (∃ v err rd1, ReadReaderBytes (runtime64 4096) (chunkReader 1) [1, 2, 3, 4] 4
        = (Run.ret (v, err), rd1) ∧ (v.len : Int) = 4) ∧
    (ReadReaderUint32 (runtime64 4096) (chunkReader 1) [1, 2, 3, 4]).1.returns = true ∧
    (makeBytes (runtime64 4096) (2 ^ 63 - 1)
        = Run.panic "runtime error: makeslice: len out of range" ∧
      "runtime error: makeslice: len out of range"
        = "runtime error: makeslice: len out of range" ∧
      (((runtime64 4096).maxAlloc : Nat) : Int) < 2 ^ 63 - 1) :=
  ⟨C19_index_safety.2.2.2.1 ⟨.mk [1]⟩ 12 "invalid bitSize value" ⟨.mk [1]⟩
      (Or.inl (by decide)),
   C19_index_safety.2.2.2.2.2.1 (List Byte) (runtime64 4096) (chunkReader 1) [1, 2, 3, 4] 4
      (.mk [0, 0, 0, 0]) (by decide) (by decide),
   (C19_index_safety.2.2.2.2.2.2.2.1 (List Byte) (runtime64 4096) (chunkReader 1)
      [1, 2, 3, 4] (.mk [0, 0, 0, 0])).2.2.2 (by decide),
   C19_index_safety.2.2.2.2.2.2.2.2.1 (List Byte) (runtime64 4096) (chunkReader 1) [1]
      (2 ^ 63 - 1) "runtime error: makeslice: len out of range" [1]
      (Or.inl (by decide))⟩

/-- C20: sequential composition. For every Buffer with remaining span `s` and
all `m, n ≥ 0` with `m + n ≤ len(s)`, `ReadBytes(m)` and then `ReadBytes(n)`
return `s[:m]` and `s[m:m+n]`, whose concatenation is the result of one
`ReadBytes(m+n)` on the original Buffer, and both routes leave the same Buffer,
with remaining span `s[m+n:]`. With at least 2 bytes, `ReadUint16` returns
`hi<<8 | lo` for the results `hi`, `lo` of two successive `ReadUint8`, and
leaves the same Buffer. -/
theorem C20_sequential_composition (b : Buffer) (m n : Int) (hm : 0 ≤ m) (hn : 0 ≤ n)
    (hmn : m + n ≤ (b.b.len : Int)) :
    (∃ v1 b1 v2 b2 v, b.ReadBytes m = (Outcome.ret v1, b1) ∧
      b1.ReadBytes n = (Outcome.ret v2, b2) ∧
      b.ReadBytes (m + n) = (Outcome.ret v, b2) ∧
      v1.bytes = b.b.bytes.take m.toNat ∧
      v2.bytes = (b.b.bytes.drop m.toNat).take n.toNat ∧
      v1.bytes ++ v2.bytes = v.bytes ∧
      b2.b.bytes = b.b.bytes.drop (m + n).toNat) ∧
    (2 ≤ b.b.len → ∃ hi lo b1 b2, b.ReadUint8 = (Outcome.ret (hi, true), b1) ∧
      b1.ReadUint8 = (Outcome.ret (lo, true), b2) ∧
      b.ReadUint16 = (Outcome.ret (((hi <<< 8) % 2 ^ 16) ||| lo, true), b2)) := by
  constructor
  · obtain ⟨s⟩ := b
    cases s with
    | nil =>
      have hm0 : m = 0 := by
        simp only [GoSlice.len_nil] at hmn
        omega
      have hn0 : n = 0 := by
        simp only [GoSlice.len_nil] at hmn
        omega
      subst hm0 hn0
      exact ⟨.nil, ⟨.nil⟩, .nil, ⟨.nil⟩, .nil, Buffer.ReadBytes_nil 0 rfl,
        Buffer.ReadBytes_nil 0 rfl, Buffer.ReadBytes_nil (0 + 0) rfl, rfl, rfl, rfl, rfl⟩
    | mk l =>
      simp only [GoSlice.len_mk] at hmn
      lift m to Nat using hm
      lift n to Nat using hn
      have hl : m + n ≤ l.length := by omega
      have h1 := Buffer.ReadBytes_mk l (m : Int) (by omega) (by omega)
      have h2 := Buffer.ReadBytes_mk (l.drop m) (n : Int) (by omega)
        (by simp only [List.length_drop]; omega)
      have h3 := Buffer.ReadBytes_mk l ((m : Int) + (n : Int)) (by omega) (by omega)
      have e : ((m : Int) + (n : Int)).toNat = m + n := by omega
      simp only [Int.toNat_ofNat] at h1 h2
      rw [e] at h3
      rw [List.drop_drop] at h2
      refine ⟨_, _, _, _, _, h1, h2, h3, ?_, ?_, ?_, ?_⟩
      · simp [GoSlice.bytes]
      · simp [GoSlice.bytes]
      · simp only [GoSlice.bytes]
        exact (List.take_add l m n).symm
      · simp only [GoSlice.bytes, e]
  · intro h
    obtain ⟨x0, x1, r, rfl⟩ := b.of_two_le_len h
    refine ⟨x0.val, x1.val, _, _, Buffer.ReadUint8_mk x0 (x1 :: r),
      Buffer.ReadUint8_mk x1 r, ?_⟩
    rw [Buffer.ReadUint16_mk, be16 _ _ x0.isLt x1.isLt]

theorem C20_sequential_composition_witness :
    (∃ v1 b1 v2 b2 v, Buffer.ReadBytes ⟨.mk [1, 2, 3, 4]⟩ 1 = (Outcome.ret v1, b1) ∧
      b1.ReadBytes 2 = (Outcome.ret v2, b2) ∧
      Buffer.ReadBytes ⟨.mk [1, 2, 3, 4]⟩ (1 + 2) = (Outcome.ret v, b2) ∧
      v1.bytes = [1] ∧ v2.bytes = [2, 3] ∧ v1.bytes ++ v2.bytes = v.bytes ∧
      b2.b.bytes = [4]) ∧
    (2 ≤ (Buffer.mk (.mk [1, 2, 3, 4])).b.len →
      ∃ hi lo b1 b2, Buffer.ReadUint8 ⟨.mk [1, 2, 3, 4]⟩ = (Outcome.ret (hi, true), b1) ∧
        b1.ReadUint8 = (Outcome.ret (lo, true), b2) ∧
        Buffer.ReadUint16 ⟨.mk [1, 2, 3, 4]⟩
          = (Outcome.ret (((hi <<< 8) % 2 ^ 16) ||| lo, true), b2)) :=
  C20_sequential_composition ⟨.mk [1, 2, 3, 4]⟩ 1 2 (by decide) (by decide) (by decide)
